import Mathlib

/-!
Verification development for the Tetromino Escape repository
(src/js/engine.js, src/js/ai.js, src/js/constants.js).

The JavaScript source is shallowly embedded: the occupancy grid is a list of
rows of optional cells, pixel-space quantities are rationals, grid coordinates
are integers, and every stateful routine is rendered as an explicit function
from the state it reads to the state it produces.  Color strings are
represented by natural-number tags (their identity is never inspected by the
verified properties).
-/

namespace TEscape

/-- COLS from constants.js (DEFAULT_CONSTANTS.COLS). -/
def COLS : Nat := 10

/-- ROWS from constants.js (DEFAULT_CONSTANTS.ROWS). -/
def ROWS : Nat := 20

/-- A grid cell: either empty (none) or a locked block tag
(engine stores a color string; we tag colors with naturals). -/
abbrev Cell := Option Nat

/-- A grid row (array of COLS cells in the source). -/
abbrev Row := List Cell

/-- The occupancy grid: ROWS rows of COLS cells, row 0 at the top. -/
abbrev Grid := List Row

/-- The all-empty row produced by Array(COLS).fill(null). -/
def emptyRow : Row := List.replicate COLS none

/-- The 20x10 empty grid produced by GameEngine.reset. -/
def emptyGrid : Grid := List.replicate ROWS emptyRow

/-- Cell lookup this.grid[y][x]; out-of-range indices read as empty,
matching the source guard this.grid[newY] && this.grid[newY][newX]. -/
def cellAt (g : Grid) (y x : Nat) : Cell :=
  match g[y]? with
  | none => none
  | some row => row[x]?.join

/-- Truthiness of a grid cell (a stored color string is truthy, null is falsy). -/
def cellOccupied (g : Grid) (y x : Nat) : Bool :=
  (cellAt g y x).isSome

/-- row.every((cell) => cell !== null): the row is fully occupied. -/
def isFullRow (r : Row) : Bool :=
  r.all (fun c => c.isSome)

/-- checkLines (engine.js): collect the indices of fully occupied rows,
drop exactly those rows, and unshift empty rows until the grid is ROWS
rows tall again.  Returns the new grid together with the number of rows
cleared (the count passed to stats/onLineCleared). -/
def linesToClearOf (g : Grid) : List Nat :=
  (g.enum.filter (fun p => isFullRow p.2)).map Prod.fst

def droppedGridOf (g : Grid) : Grid :=
  (g.enum.filter (fun p => p.1 ∉ linesToClearOf g)).map Prod.snd

def checkLines (g : Grid) : Grid × Nat :=
  if linesToClearOf g = [] then (g, 0)
  else
    (List.replicate (ROWS - (droppedGridOf g).length) emptyRow ++ droppedGridOf g,
      (linesToClearOf g).length)

/-- Projecting the second components after filtering an enumeration by a
predicate on the second component is just filtering the underlying list. -/
theorem enumFrom_filter_snd_map {α : Type} (q : α → Bool) :
    ∀ (l : List α) (n : Nat),
      ((List.enumFrom n l).filter (fun p => q p.2)).map Prod.snd = l.filter q := by
  intro l
  induction l with
  | nil => intro n; rfl
  | cons a t ih =>
    intro n
    by_cases hq : q a = true
    · simp [List.enumFrom, List.filter, hq, ih]
    · simp only [Bool.not_eq_true] at hq
      simp [List.enumFrom, List.filter, hq, ih]

/-- Every index produced by enumFrom n is at least n. -/
theorem le_fst_of_mem_enumFrom {α : Type} :
    ∀ (l : List α) (n : Nat) (p : Nat × α), p ∈ List.enumFrom n l → n ≤ p.1 := by
  intro l
  induction l with
  | nil => intro n p h; simp [List.enumFrom] at h
  | cons a t ih =>
    intro n p h
    simp only [List.enumFrom, List.mem_cons] at h
    rcases h with h | h
    · subst h; exact Nat.le_refl n
    · exact Nat.le_of_succ_le (ih (n + 1) p h)

/-- Indices below the enumeration start never occur among the filtered indices. -/
theorem not_mem_fst_filter_enumFrom {α : Type} (q : Nat × α → Bool)
    (l : List α) (n i : Nat) (hi : i < n) :
    i ∉ ((List.enumFrom n l).filter q).map Prod.fst := by
  intro hmem
  rcases List.mem_map.1 hmem with ⟨p, hp, hfst⟩
  have hn := le_fst_of_mem_enumFrom l n p (List.mem_of_mem_filter hp)
  omega

/-- Dropping the rows whose indices are the full-row indices is the same as
filtering out the full rows directly. -/
theorem enum_drop_full_eq_filter :
    ∀ (l : List Row) (n : Nat),
      ((List.enumFrom n l).filter
          (fun p => decide (p.1 ∉
            (((List.enumFrom n l).filter (fun r => isFullRow r.2)).map Prod.fst)))).map
        Prod.snd
        = l.filter (fun r => !isFullRow r) := by
  intro l
  induction l with
  | nil => intro n; rfl
  | cons a t ih =>
    intro n
    have hnotail : n ∉ ((List.enumFrom (n + 1) t).filter
        (fun r => isFullRow r.2)).map Prod.fst :=
      not_mem_fst_filter_enumFrom _ t (n + 1) n (Nat.lt_succ_self n)
    by_cases hf : isFullRow a = true
    · -- the head row is full: its index is recorded and the row is dropped
      simp only [List.enumFrom, List.filter, hf]
      have hpred : (decide (n ∉ (n, a).1 ::
          ((List.enumFrom (n + 1) t).filter (fun r => isFullRow r.2)).map Prod.fst)) = false := by
        simp
      simp only [List.map, hpred]
      have hcongr : ∀ p ∈ List.enumFrom (n + 1) t,
          (decide (p.1 ∉ n ::
            ((List.enumFrom (n + 1) t).filter (fun r => isFullRow r.2)).map Prod.fst))
          = (decide (p.1 ∉
            ((List.enumFrom (n + 1) t).filter (fun r => isFullRow r.2)).map Prod.fst)) := by
        intro p hp
        have : n + 1 ≤ p.1 := le_fst_of_mem_enumFrom t (n + 1) p hp
        simp only [List.mem_cons, decide_eq_decide]
        constructor
        · intro h hmem; exact h (Or.inr hmem)
        · intro h hmem
          rcases hmem with h1 | h1
          · omega
          · exact h h1
      rw [List.filter_congr hcongr, ih (n + 1)]
      simp [List.filter, hf]
    · -- the head row is not full: it is kept
      simp only [Bool.not_eq_true] at hf
      simp only [List.enumFrom, List.filter, hf]
      have hpred : (decide (n ∉
          ((List.enumFrom (n + 1) t).filter (fun r => isFullRow r.2)).map Prod.fst)) = true := by
        simpa using hnotail
      simp only [List.map, hpred]
      rw [ih (n + 1)]
      simp [List.filter, hf]

/-- The number of recorded full-row indices is the number of full rows. -/
theorem length_full_indices (g : Grid) :
    ((g.enum.filter (fun p => isFullRow p.2)).map Prod.fst).length
      = g.countP isFullRow := by
  have h := enumFrom_filter_snd_map isFullRow g 0
  have hlen : ((List.enumFrom 0 g).filter (fun p => isFullRow p.2)).length
      = (g.filter isFullRow).length := by
    calc ((List.enumFrom 0 g).filter (fun p => isFullRow p.2)).length
        = (((List.enumFrom 0 g).filter (fun p => isFullRow p.2)).map Prod.snd).length := by
          rw [List.length_map]
      _ = (g.filter isFullRow).length := by rw [h]
  simp only [List.enum, List.length_map]
  rw [hlen, ← List.countP_eq_length_filter]

/-- A piece shape: boolean matrix of one rotation (constants.js TETROMINOES). -/
abbrev Shape := List (List Bool)

/-- The seven tetromino types. -/
inductive PieceType where
  | I | O | T | S | Z | J | L
deriving DecidableEq

instance : Fintype PieceType :=
  ⟨⟨{.I, .O, .T, .S, .Z, .J, .L}, by decide⟩, by intro x; cases x <;> decide⟩

/-- TETROMINOES[type].shapes from constants.js. -/
def shapesOf : PieceType → List Shape
  | .I => [[[true, true, true, true]], [[true], [true], [true], [true]]]
  | .O => [[[true, true], [true, true]]]
  | .T => [[[false, true, false], [true, true, true]],
           [[true, false], [true, true], [true, false]],
           [[true, true, true], [false, true, false]],
           [[false, true], [true, true], [false, true]]]
  | .S => [[[false, true, true], [true, true, false]],
           [[true, false], [true, true], [false, true]]]
  | .Z => [[[true, true, false], [false, true, true]],
           [[false, true], [true, true], [true, false]]]
  | .J => [[[true, false, false], [true, true, true]],
           [[true, true], [true, false], [true, false]],
           [[true, true, true], [false, false, true]],
           [[false, true], [false, true], [true, true]]]
  | .L => [[[false, false, true], [true, true, true]],
           [[true, false], [true, false], [true, true]],
           [[true, true, true], [true, false, false]],
           [[true, true], [false, true], [false, true]]]

/-- TETROMINOES[type].color, as a numeric tag standing for the color string. -/
def colorOf : PieceType → Nat
  | .I => 0 | .O => 1 | .T => 2 | .S => 3 | .Z => 4 | .J => 5 | .L => 6

/-- getShape from utils.js: shapes[rotation % shapes.length]. -/
def getShape (t : PieceType) (rotation : Nat) : Shape :=
  (shapesOf t).getD (rotation % (shapesOf t).length) []

/-- The active piece record built by spawnPiece. -/
structure Piece where
  type : PieceType
  rotation : Nat
  shape : Shape
  color : Nat
  x : Int
  y : Int
  fallStepCount : Nat
deriving DecidableEq

/-- canPlacePiece from engine.js: every filled cell of the (optionally
overridden) shape must be inside the column range, above the bottom, and —
only when its row index is non-negative — on an empty grid cell.  Cells above
the top of the well (negative row) are not collision-checked. -/
def canPlacePiece (g : Grid) (p : Piece) (offsetX offsetY : Int)
    (testShape : Option Shape := none) : Bool :=
  (testShape.getD p.shape).enum.all fun pyrow =>
    pyrow.2.enum.all fun pxcell =>
      !pxcell.2 ||
        (decide (0 ≤ p.x + pxcell.1 + offsetX)
          && decide (p.x + pxcell.1 + offsetX < (COLS : Int))
          && decide (p.y + pyrow.1 + offsetY < (ROWS : Int))
          && (decide (p.y + pyrow.1 + offsetY < 0)
            || !cellOccupied g (p.y + pyrow.1 + offsetY).toNat
                  (p.x + pxcell.1 + offsetX).toNat))

/-- Write a single cell of the grid (this.grid[y][x] = color). -/
def setCell (g : Grid) (y x : Nat) (v : Cell) : Grid :=
  g.set y ((g.getD y []).set x v)

/-- One guarded write of lockPiece: store the color when the coordinates are
inside the well, otherwise leave the grid alone (the source's bounds test
gridY >= 0 && gridY < ROWS && gridX >= 0 && gridX < COLS). -/
def writeIfInBounds (color : Nat) (acc : Grid) (w : Int × Int) : Grid :=
  if 0 ≤ w.1 ∧ w.1 < (ROWS : Int) ∧ 0 ≤ w.2 ∧ w.2 < (COLS : Int) then
    setCell acc w.1.toNat w.2.toNat (some color)
  else acc

/-- The grid mutation performed by lockPiece (engine.js): for every filled
shape cell whose grid coordinates are inside the well, store the piece color;
all other shape cells (in particular those above the top) are discarded. -/
def lockPieceGrid (g : Grid) (p : Piece) : Grid :=
  p.shape.enum.foldl
    (fun acc pyrow =>
      pyrow.2.enum.foldl
        (fun acc2 pxcell =>
          if pxcell.2 then
            writeIfInBounds p.color acc2 (p.y + pyrow.1, p.x + pxcell.1)
          else acc2)
        acc)
    g

/-- The list of grid coordinates (row, column) of the filled cells of the
piece, in the order lockPiece visits them. -/
def pieceCells (p : Piece) : List (Int × Int) :=
  p.shape.enum.flatMap fun pyrow =>
    pyrow.2.enum.filterMap fun pxcell =>
      if pxcell.2 then some (p.y + pyrow.1, p.x + pxcell.1) else none

/-- Folding a selective step over a list is folding over the filterMap. -/
theorem foldl_filterMap_fuse {α β γ : Type} (sel : α → Option β) (f : γ → β → γ) :
    ∀ (l : List α) (acc : γ),
      l.foldl (fun a x => match sel x with | some b => f a b | none => a) acc
        = (l.filterMap sel).foldl f acc := by
  intro l
  induction l with
  | nil => intro acc; rfl
  | cons a t ih =>
    intro acc
    cases hsel : sel a with
    | none => simp [List.filterMap_cons, hsel, ih]
    | some b => simp [List.filterMap_cons, hsel, ih]

/-- Folding over a flatMap is the nested fold. -/
theorem foldl_flatMap_fuse {α β γ : Type} (h : α → List β) (f : γ → β → γ) :
    ∀ (l : List α) (acc : γ),
      (l.flatMap h).foldl f acc = l.foldl (fun a x => (h x).foldl f a) acc := by
  intro l
  induction l with
  | nil => intro acc; rfl
  | cons a t ih =>
    intro acc
    simp [List.flatMap_cons, List.foldl_append, ih]

/-- lockPieceGrid is the fold of the guarded writes over the piece cells. -/
theorem lockPieceGrid_eq_foldl (g : Grid) (p : Piece) :
    lockPieceGrid g p = (pieceCells p).foldl (writeIfInBounds p.color) g := by
  unfold lockPieceGrid pieceCells
  rw [foldl_flatMap_fuse]
  congr 1
  funext acc pyrow
  rw [← foldl_filterMap_fuse]
  congr 1
  funext acc2 pxcell
  cases h : pxcell.2 <;> simp [h]

/-- setCell preserves the number of rows. -/
theorem length_setCell (g : Grid) (y x : Nat) (v : Cell) :
    (setCell g y x v).length = g.length := by
  unfold setCell
  exact List.length_set g y _

/-- setCell preserves the length of every row. -/
theorem rows_setCell (g : Grid) (y x : Nat) (v : Cell)
    (hrow : ∀ r ∈ g, r.length = COLS) :
    ∀ r ∈ setCell g y x v, r.length = COLS := by
  intro r hr
  by_cases hy : y < g.length
  · unfold setCell at hr
    rcases List.mem_or_eq_of_mem_set hr with h | h
    · exact hrow r h
    · rw [h, List.length_set, List.getD_eq_getElem g [] hy]
      exact hrow _ (List.getElem_mem hy)
  · unfold setCell at hr
    rw [List.set_eq_of_length_le (by omega)] at hr
    exact hrow r hr

/-- Reading after setCell: the updated cell holds the new value, all other
cells are unchanged (for in-range coordinates on a well-formed grid). -/
theorem cellAt_setCell (g : Grid) (hlen : g.length = ROWS)
    (hrow : ∀ r ∈ g, r.length = COLS)
    (y x : Nat) (v : Cell) (y' x' : Nat)
    (hy : y < ROWS) (hx : x < COLS) (hy' : y' < ROWS) (hx' : x' < COLS) :
    cellAt (setCell g y x v) y' x'
      = if y = y' ∧ x = x' then v else cellAt g y' x' := by
  have hylen : y < g.length := by omega
  have hgetD : List.getD g y [] = g[y]?.getD [] := List.getD_eq_getElem?_getD g y []
  have hrlen : (g.getD y []).length = COLS := by
    rw [List.getD_eq_getElem g [] hylen]
    exact hrow _ (List.getElem_mem hylen)
  have hsome : g[y]? = some (g.getD y []) := by
    rw [List.getD_eq_getElem g [] hylen]
    exact List.getElem?_eq_getElem hylen
  by_cases hyy : y = y'
  · subst hyy
    have h1 : (setCell g y x v)[y]? = some ((g.getD y []).set x v) := by
      unfold setCell
      exact List.getElem?_set_self (by omega)
    by_cases hxx : x = x'
    · subst hxx
      have h2 : ((g.getD y []).set x v)[x]? = some v :=
        List.getElem?_set_self (by omega)
      rw [hgetD] at h2
      unfold cellAt
      rw [h1]
      simp [h2]
    · have h2 : ((g.getD y []).set x v)[x']? = (g.getD y [])[x']? :=
        List.getElem?_set_ne hxx
      rw [hgetD] at h2
      unfold cellAt
      rw [h1, hsome]
      simp [h2, hxx]
  · unfold cellAt setCell
    rw [List.getElem?_set_ne hyy]
    simp [hyy]

/-- Reading after the fold of guarded writes: a cell inside the well holds the
written color exactly when some in-bounds write targets it. -/
theorem cellAt_foldl_writes (color : Nat) :
    ∀ (ws : List (Int × Int)) (g : Grid), g.length = ROWS →
      (∀ r ∈ g, r.length = COLS) →
      ∀ y x : Nat, y < ROWS → x < COLS →
        cellAt (ws.foldl (writeIfInBounds color) g) y x
          = if ∃ w ∈ ws, w.1 = (y : Int) ∧ w.2 = (x : Int) then some color
            else cellAt g y x := by
  intro ws
  induction ws with
  | nil =>
    intro g hlen hrow y x hy hx
    simp
  | cons w t ih =>
    intro g hlen hrow y x hy hx
    have hglen : (writeIfInBounds color g w).length = ROWS := by
      unfold writeIfInBounds
      split
      · rw [length_setCell]; exact hlen
      · exact hlen
    have hgrow : ∀ r ∈ writeIfInBounds color g w, r.length = COLS := by
      unfold writeIfInBounds
      split
      · exact rows_setCell g _ _ _ hrow
      · exact hrow
    rw [List.foldl_cons, ih _ hglen hgrow y x hy hx]
    by_cases hw : w.1 = (y : Int) ∧ w.2 = (x : Int)
    · -- the head write targets this cell
      have hcond : ∃ u ∈ w :: t, u.1 = (y : Int) ∧ u.2 = (x : Int) :=
        ⟨w, List.mem_cons_self w t, hw⟩
      rw [if_pos hcond]
      by_cases htail : ∃ u ∈ t, u.1 = (y : Int) ∧ u.2 = (x : Int)
      · rw [if_pos htail]
      · rw [if_neg htail]
        have hbounds : 0 ≤ w.1 ∧ w.1 < (ROWS : Int) ∧ 0 ≤ w.2 ∧ w.2 < (COLS : Int) := by
          obtain ⟨h1, h2⟩ := hw
          constructor
          · omega
          constructor
          · have : (ROWS : Int) = 20 := by decide
            omega
          constructor
          · omega
          · have : (COLS : Int) = 10 := by decide
            omega
        unfold writeIfInBounds
        rw [if_pos hbounds]
        have hyy : w.1.toNat = y := by omega
        have hxx : w.2.toNat = x := by omega
        rw [hyy, hxx, cellAt_setCell g hlen hrow y x _ y x hy hx hy hx]
        simp
    · -- the head write targets a different cell (or lies outside the well)
      have hiff : (∃ u ∈ w :: t, u.1 = (y : Int) ∧ u.2 = (x : Int))
          ↔ (∃ u ∈ t, u.1 = (y : Int) ∧ u.2 = (x : Int)) := by
        constructor
        · rintro ⟨u, hu, hprop⟩
          rcases List.mem_cons.1 hu with h | h
          · exact absurd (h ▸ hprop) hw
          · exact ⟨u, h, hprop⟩
        · rintro ⟨u, hu, hprop⟩
          exact ⟨u, List.mem_cons_of_mem w hu, hprop⟩
      by_cases htail : ∃ u ∈ t, u.1 = (y : Int) ∧ u.2 = (x : Int)
      · rw [if_pos htail, if_pos (hiff.2 htail)]
      · rw [if_neg htail, if_neg (fun h => htail (hiff.1 h))]
        unfold writeIfInBounds
        split
        · next hb =>
          rw [cellAt_setCell g hlen hrow _ _ _ y x (by omega) (by omega) hy hx]
          rw [if_neg]
          intro ⟨h1, h2⟩
          exact hw ⟨by omega, by omega⟩
        · rfl

/-- Dimensions are preserved by the fold of guarded writes. -/
theorem dims_foldl_writes (color : Nat) :
    ∀ (ws : List (Int × Int)) (g : Grid),
      ((ws.foldl (writeIfInBounds color) g).length = g.length
        ∧ ((∀ r ∈ g, r.length = COLS)
            → ∀ r ∈ ws.foldl (writeIfInBounds color) g, r.length = COLS)) := by
  intro ws
  induction ws with
  | nil => intro g; exact ⟨rfl, fun h => h⟩
  | cons w t ih =>
    intro g
    have hstep : (writeIfInBounds color g w).length = g.length := by
      unfold writeIfInBounds
      split
      · exact length_setCell g _ _ _
      · rfl
    constructor
    · rw [List.foldl_cons, (ih (writeIfInBounds color g w)).1, hstep]
    · intro hrow
      rw [List.foldl_cons]
      apply (ih (writeIfInBounds color g w)).2
      unfold writeIfInBounds
      split
      · exact rows_setCell g _ _ _ hrow
      · exact hrow

/-- Cell-wise characterization of canPlacePiece: the placement is accepted
iff every filled cell of the tested shape is inside the column range, above
the bottom, and — when its row is inside the well — on an empty grid cell. -/
theorem canPlacePiece_iff (g : Grid) (p : Piece) (ox oy : Int) (ts : Option Shape) :
    canPlacePiece g p ox oy ts = true ↔
      ∀ (py : Nat) (row : List Bool), (ts.getD p.shape)[py]? = some row →
        ∀ (px : Nat), row[px]? = some true →
        (0 ≤ p.x + (px : Int) + ox ∧ p.x + (px : Int) + ox < (COLS : Int)
          ∧ p.y + (py : Int) + oy < (ROWS : Int)
          ∧ (0 ≤ p.y + (py : Int) + oy →
              cellAt g (p.y + (py : Int) + oy).toNat (p.x + (px : Int) + ox).toNat
                = none)) := by
  unfold canPlacePiece
  rw [List.all_eq_true]
  constructor
  · intro h py row hrow px hpx
    have hmem : (py, row) ∈ (ts.getD p.shape).enum :=
      List.mk_mem_enum_iff_getElem?.2 hrow
    have h1 := h _ hmem
    rw [List.all_eq_true] at h1
    have hmem2 : (px, true) ∈ row.enum :=
      List.mk_mem_enum_iff_getElem?.2 hpx
    have h2 := h1 _ hmem2
    simp only [Bool.not_true, Bool.false_or, Bool.and_eq_true, Bool.or_eq_true,
      decide_eq_true_eq, Bool.not_eq_true'] at h2
    obtain ⟨⟨⟨ha, hb⟩, hc⟩, hd⟩ := h2
    refine ⟨ha, hb, hc, ?_⟩
    intro hynn
    rcases hd with hd | hd
    · omega
    · unfold cellOccupied at hd
      exact Option.not_isSome_iff_eq_none.1 (by simp [hd])
  · intro h pr hmem
    rw [List.all_eq_true]
    intro pc hmem2
    rw [List.mk_mem_enum_iff_getElem?] at hmem
    by_cases hc : pc.2 = true
    · have hmem2' : (pc.1, true) ∈ pr.2.enum := by
        rw [← hc]
        exact hmem2
      rw [List.mk_mem_enum_iff_getElem?] at hmem2'
      obtain ⟨ha, hb, hcy, hd⟩ := h pr.1 pr.2 hmem pc.1 hmem2'
      simp only [hc, Bool.not_true, Bool.false_or, Bool.and_eq_true, Bool.or_eq_true,
        decide_eq_true_eq, Bool.not_eq_true']
      refine ⟨⟨⟨ha, hb⟩, hcy⟩, ?_⟩
      by_cases hy : p.y + pr.1 + oy < 0
      · exact Or.inl hy
      · right
        unfold cellOccupied
        rw [hd (by omega)]
        rfl
    · simp [hc]

/-- C10: canPlacePiece ignores piece cells above the top of the well — it
accepts a position iff every filled cell is inside the column range and above
the bottom, and every filled cell with non-negative row lands on an empty
grid cell; and lockPiece writes the color exactly to the in-grid cells
covered by the piece, silently discarding cells above the top, leaving the
grid dimensions intact. -/
theorem canPlace_ignores_above_top_and_lock_discards :
    (∀ (g : Grid) (p : Piece) (ox oy : Int),
      canPlacePiece g p ox oy none = true ↔
        ∀ (py : Nat) (row : List Bool), p.shape[py]? = some row →
          ∀ (px : Nat), row[px]? = some true →
          (0 ≤ p.x + (px : Int) + ox ∧ p.x + (px : Int) + ox < (COLS : Int)
            ∧ p.y + (py : Int) + oy < (ROWS : Int)
            ∧ (0 ≤ p.y + (py : Int) + oy →
                cellAt g (p.y + (py : Int) + oy).toNat (p.x + (px : Int) + ox).toNat
                  = none)))
    ∧ (∀ (g : Grid) (p : Piece), g.length = ROWS → (∀ r ∈ g, r.length = COLS) →
        ((∀ y x : Nat, y < ROWS → x < COLS →
          cellAt (lockPieceGrid g p) y x
            = if ∃ w ∈ pieceCells p, w.1 = (y : Int) ∧ w.2 = (x : Int)
              then some p.color else cellAt g y x)
        ∧ (lockPieceGrid g p).length = ROWS
        ∧ ∀ r ∈ lockPieceGrid g p, r.length = COLS)) := by
  constructor
  · intro g p ox oy
    exact canPlacePiece_iff g p ox oy none
  · intro g p hlen hrow
    refine ⟨?_, ?_, ?_⟩
    · intro y x hy hx
      rw [lockPieceGrid_eq_foldl]
      exact cellAt_foldl_writes p.color (pieceCells p) g hlen hrow y x hy hx
    · rw [lockPieceGrid_eq_foldl, (dims_foldl_writes p.color (pieceCells p) g).1, hlen]
    · rw [lockPieceGrid_eq_foldl]
      exact (dims_foldl_writes p.color (pieceCells p) g).2 hrow

/-- C10 witness: an I piece lying flat with its row above the top of the well
(y = -1) is accepted by canPlacePiece on the empty grid, and locking it there
writes nothing into the grid. -/
theorem canPlace_ignores_above_top_and_lock_discards_witness :
    (canPlacePiece emptyGrid
        { type := .I, rotation := 0, shape := getShape .I 0, color := colorOf .I,
          x := 3, y := -1, fallStepCount := 0 } 0 0 none = true ↔
      ∀ (py : Nat) (row : List Bool),
          ({ type := .I, rotation := 0, shape := getShape .I 0, color := colorOf .I,
             x := 3, y := -1, fallStepCount := 0 } : Piece).shape[py]? = some row →
          ∀ (px : Nat), row[px]? = some true →
          (0 ≤ (3 : Int) + (px : Int) + 0 ∧ (3 : Int) + (px : Int) + 0 < (COLS : Int)
            ∧ (-1 : Int) + (py : Int) + 0 < (ROWS : Int)
            ∧ (0 ≤ (-1 : Int) + (py : Int) + 0 →
                cellAt emptyGrid ((-1 : Int) + (py : Int) + 0).toNat
                  ((3 : Int) + (px : Int) + 0).toNat = none)))
    ∧ canPlacePiece emptyGrid
        { type := .I, rotation := 0, shape := getShape .I 0, color := colorOf .I,
          x := 3, y := -1, fallStepCount := 0 } 0 0 none = true
    ∧ cellAt (lockPieceGrid emptyGrid
        { type := .I, rotation := 0, shape := getShape .I 0, color := colorOf .I,
          x := 3, y := -1, fallStepCount := 0 }) 0 3 = none := by
  refine ⟨?_, by decide, by decide⟩
  exact canPlace_ignores_above_top_and_lock_discards.1 emptyGrid _ 0 0

/-- Difficulty configuration record (constants.js DIFFICULTY_SETTINGS).
Scoring weights are integers; timing and danger-zone quantities are
rationals. -/
structure DiffConfig where
  baseFallTick : ℚ
  aiMoveInterval : ℚ
  spawnDropDelay : Nat
  minFastDropHeight : Nat
  minMovesBeforeFastDrop : Nat
  lineReward : Int
  multiLineBonus : Bool
  holeReward : Int
  coveredHoleReward : Int
  heightReward : Int
  maxHeightReward : Int
  bumpinessReward : Int
  funnelPenaltyBase : Int
  splitPenalty : Int
  dangerZoneMargin : ℚ
  dangerZoneReward : ℚ
  dangerZoneDecay : ℚ
  playerCompletesLine : Bool
  lineClearDelay : ℚ
  sabotageDuration : ℚ
  sabotageCooldown : ℚ
deriving DecidableEq

/-- DIFFICULTY_SETTINGS.easy. -/
def easyConfig : DiffConfig :=
  { baseFallTick := 800, aiMoveInterval := 300, spawnDropDelay := 2,
    minFastDropHeight := 6, minMovesBeforeFastDrop := 3, lineReward := 1,
    multiLineBonus := false, holeReward := -10, coveredHoleReward := 0,
    heightReward := 0, maxHeightReward := 0, bumpinessReward := -1,
    funnelPenaltyBase := -30, splitPenalty := -1000, dangerZoneMargin := 3/4,
    dangerZoneReward := -500, dangerZoneDecay := 1,
    playerCompletesLine := false, lineClearDelay := 800,
    sabotageDuration := 3/2, sabotageCooldown := 3 }

/-- DIFFICULTY_SETTINGS.normal. -/
def normalConfig : DiffConfig :=
  { baseFallTick := 600, aiMoveInterval := 115, spawnDropDelay := 2,
    minFastDropHeight := 4, minMovesBeforeFastDrop := 3, lineReward := 20,
    multiLineBonus := false, holeReward := -40, coveredHoleReward := 0,
    heightReward := -1, maxHeightReward := -2, bumpinessReward := -5,
    funnelPenaltyBase := -20, splitPenalty := -500, dangerZoneMargin := 1/2,
    dangerZoneReward := -250, dangerZoneDecay := 7/10,
    playerCompletesLine := false, lineClearDelay := 800,
    sabotageDuration := 3/2, sabotageCooldown := 5 }

/-- DIFFICULTY_SETTINGS.hard. -/
def hardConfig : DiffConfig :=
  { baseFallTick := 450, aiMoveInterval := 50, spawnDropDelay := 0,
    minFastDropHeight := 3, minMovesBeforeFastDrop := 2, lineReward := 200,
    multiLineBonus := true, holeReward := -100, coveredHoleReward := 0,
    heightReward := -4, maxHeightReward := -5, bumpinessReward := -20,
    funnelPenaltyBase := -10, splitPenalty := -250, dangerZoneMargin := 1/4,
    dangerZoneReward := -75, dangerZoneDecay := 2/5,
    playerCompletesLine := true, lineClearDelay := 800,
    sabotageDuration := 2, sabotageCooldown := 8 }

/-- CLIFF_HEIGHT_THRESHOLD from constants.js. -/
def CLIFF_HEIGHT_THRESHOLD : Int := 4

/-- The loop computing leftFunnelValidUntil in calculateFunnelBounds
(ai.js): walk x rightward from 1 while heights stay non-increasing,
remembering the last index that kept the pattern; break on the first
violation.  fuel counts the remaining loop iterations. -/
def leftValidAux (h : Nat → Int) : Nat → Nat → Nat → Nat
  | 0, _, acc => acc
  | fuel + 1, x, acc =>
      if h x ≤ h (x - 1) then leftValidAux h fuel (x + 1) x else acc

/-- leftFunnelValidUntil of calculateFunnelBounds (the for loop runs for
x = 1 .. COLS-1). -/
def leftFunnelValidUntil (h : Nat → Int) : Nat :=
  leftValidAux h (COLS - 1) 1 0

/-- The loop computing rightFunnelValidUntil: walk x leftward from COLS-2
while heights stay non-increasing toward the right edge; break on the first
violation. -/
def rightValidAux (h : Nat → Int) : Nat → Nat → Nat → Nat
  | 0, _, acc => acc
  | fuel + 1, x, acc =>
      if h x ≤ h (x + 1) then rightValidAux h fuel (x - 1) x else acc

/-- rightFunnelValidUntil of calculateFunnelBounds. -/
def rightFunnelValidUntil (h : Nat → Int) : Nat :=
  rightValidAux h (COLS - 1) (COLS - 2) (COLS - 1)

/-- calculateFunnelBounds (ai.js): the pair of funnel-validity bounds.
The column-height array is abstracted as a function on column indices
(only indices 0 .. COLS-1 are ever read). -/
def calculateFunnelBounds (h : Nat → Int) : Nat × Nat :=
  (leftFunnelValidUntil h, rightFunnelValidUntil h)

/-- The higher column of the adjacent pair (x, x+1)
(heights[x] > heights[x+1] ? x : x + 1). -/
def higherColOf (h : Nat → Int) (x : Nat) : Nat :=
  if h (x + 1) < h x then x else x + 1

/-- The lower column of the adjacent pair (x, x+1). -/
def lowerColOf (h : Nat → Int) (x : Nat) : Nat :=
  if h (x + 1) < h x then x + 1 else x

/-- The penalty contributed by the adjacent column pair (x, x+1) in
evaluateTerrainPenalty: nothing below the cliff threshold, a mild
edge-distance-scaled penalty for a cliff that is part of a valid funnel,
and the severe split penalty otherwise. -/
def pairPenalty (cfg : DiffConfig) (h : Nat → Int) (lv rv : Nat) (x : Nat) : Int :=
  if |h x - h (x + 1)| < CLIFF_HEIGHT_THRESHOLD then 0
  else if (if higherColOf h x ≤ COLS / 2
      then higherColOf h x < lowerColOf h x ∧ lowerColOf h x ≤ lv
      else lowerColOf h x < higherColOf h x ∧ rv ≤ lowerColOf h x)
    then cfg.funnelPenaltyBase
        * 2 ^ min (higherColOf h x) (COLS - 1 - higherColOf h x)
    else cfg.splitPenalty

/-- evaluateTerrainPenalty (ai.js): the sum of the pair penalties over all
adjacent column pairs, given the funnel bounds (left, right). -/
def evaluateTerrainPenalty (h : Nat → Int) (cfg : DiffConfig) (fb : Nat × Nat) : Int :=
  ∑ x ∈ Finset.range (COLS - 1), pairPenalty cfg h fb.1 fb.2 x

/-- The left-right mirror of a height profile. -/
def mirrorHeights (h : Nat → Int) : Nat → Int :=
  fun x => h (COLS - 1 - x)

/-- A profile has no central cliff: no adjacent pair differing by at least
the cliff threshold has its higher column at COLS/2 - 1 or COLS/2. -/
def centralCliffFree (h : Nat → Int) : Prop :=
  ∀ x < COLS - 1, CLIFF_HEIGHT_THRESHOLD ≤ |h x - h (x + 1)| →
    higherColOf h x ≠ COLS / 2 - 1 ∧ higherColOf h x ≠ COLS / 2

/-- The left-funnel loop never returns an index beyond COLS - 1. -/
theorem leftValidAux_le (h : Nat → Int) :
    ∀ (fuel x acc : Nat), acc ≤ 9 → x + fuel ≤ 10 →
      leftValidAux h fuel x acc ≤ 9 := by
  intro fuel
  induction fuel with
  | zero => intro x acc hacc hx; exact hacc
  | succ fuel ih =>
    intro x acc hacc hx
    unfold leftValidAux
    by_cases hc : h x ≤ h (x - 1)
    · rw [if_pos hc]
      exact ih (x + 1) x (by omega) (by omega)
    · rw [if_neg hc]
      exact hacc

/-- The right-funnel loop never returns an index beyond COLS - 1. -/
theorem rightValidAux_le (h : Nat → Int) :
    ∀ (fuel x acc : Nat), acc ≤ 9 → x ≤ 8 →
      rightValidAux h fuel x acc ≤ 9 := by
  intro fuel
  induction fuel with
  | zero => intro x acc hacc hx; exact hacc
  | succ fuel ih =>
    intro x acc hacc hx
    unfold rightValidAux
    by_cases hc : h x ≤ h (x + 1)
    · rw [if_pos hc]
      exact ih (x - 1) x (by omega) (by omega)
    · rw [if_neg hc]
      exact hacc

/-- Mirror relation between the two funnel loops, left side of the mirror
versus right side of the original. -/
theorem leftValidAux_mirror (h : Nat → Int) :
    ∀ (fuel x acc : Nat), 1 ≤ x → x + fuel ≤ 10 → acc ≤ 9 →
      leftValidAux (mirrorHeights h) fuel x acc
        = 9 - rightValidAux h fuel (9 - x) (9 - acc) := by
  intro fuel
  induction fuel with
  | zero =>
    intro x acc h1 h2 h3
    unfold leftValidAux rightValidAux
    omega
  | succ fuel ih =>
    intro x acc h1 h2 h3
    have hx9 : x ≤ 9 := by omega
    have e1 : mirrorHeights h x = h (9 - x) := rfl
    have e2 : mirrorHeights h (x - 1) = h (9 - x + 1) := by
      unfold mirrorHeights
      congr 1
      simp only [COLS]
      omega
    unfold leftValidAux rightValidAux
    rw [e1, e2]
    by_cases hc : h (9 - x) ≤ h (9 - x + 1)
    · rw [if_pos hc, if_pos hc]
      have hrec := ih (x + 1) x (by omega) (by omega) (by omega)
      have e3 : 9 - (x + 1) = 9 - x - 1 := by omega
      rw [e3] at hrec
      exact hrec
    · rw [if_neg hc, if_neg hc]
      omega

/-- Mirror relation between the two funnel loops, right side of the mirror
versus left side of the original. -/
theorem rightValidAux_mirror (h : Nat → Int) :
    ∀ (fuel x acc : Nat), x ≤ 8 → fuel ≤ x + 1 → acc ≤ 9 →
      rightValidAux (mirrorHeights h) fuel x acc
        = 9 - leftValidAux h fuel (9 - x) (9 - acc) := by
  intro fuel
  induction fuel with
  | zero =>
    intro x acc h1 h2 h3
    unfold leftValidAux rightValidAux
    omega
  | succ fuel ih =>
    intro x acc h1 h2 h3
    have e1 : mirrorHeights h x = h (9 - x) := rfl
    have e2 : mirrorHeights h (x + 1) = h (9 - x - 1) := by
      unfold mirrorHeights
      congr 1
    unfold leftValidAux rightValidAux
    rw [e1, e2]
    by_cases hc : h (9 - x) ≤ h (9 - x - 1)
    · rw [if_pos hc, if_pos hc]
      rcases Nat.eq_zero_or_pos x with hx0 | hxpos
      · subst hx0
        have hf0 : fuel = 0 := by omega
        subst hf0
        unfold leftValidAux rightValidAux
        omega
      · have hrec := ih (x - 1) x (by omega) (by omega) (by omega)
        have e3 : 9 - (x - 1) = 9 - x + 1 := by omega
        rw [e3] at hrec
        exact hrec
    · rw [if_neg hc, if_neg hc]
      omega

/-- The funnel bounds of the mirrored profile are the mirrored bounds. -/
theorem funnelBounds_mirror (h : Nat → Int) :
    leftFunnelValidUntil (mirrorHeights h) = (COLS - 1) - rightFunnelValidUntil h
      ∧ rightFunnelValidUntil (mirrorHeights h) = (COLS - 1) - leftFunnelValidUntil h := by
  constructor
  · have hm := leftValidAux_mirror h 9 1 0 (by omega) (by omega) (by omega)
    unfold leftFunnelValidUntil rightFunnelValidUntil
    simp only [COLS]
    convert hm using 2
  · have hm := rightValidAux_mirror h 9 8 9 (by omega) (by omega) (by omega)
    unfold leftFunnelValidUntil rightFunnelValidUntil
    simp only [COLS]
    convert hm using 2

/-- A single adjacent pair contributes the same penalty under mirroring as
long as its higher column is not one of the two central columns. -/
theorem pairPenalty_mirror (cfg : DiffConfig) (h : Nat → Int) (x lv rv : Nat)
    (hx : x ≤ 8) (hlv : lv ≤ 9) (hrv : rv ≤ 9)
    (hno : CLIFF_HEIGHT_THRESHOLD ≤ |h x - h (x + 1)| →
      higherColOf h x ≠ 4 ∧ higherColOf h x ≠ 5) :
    pairPenalty cfg (mirrorHeights h) (9 - rv) (9 - lv) (8 - x)
      = pairPenalty cfg h lv rv x := by
  have e1 : mirrorHeights h (8 - x) = h (x + 1) := by
    unfold mirrorHeights
    congr 1
    simp only [COLS]
    omega
  have e2 : mirrorHeights h (8 - x + 1) = h x := by
    unfold mirrorHeights
    congr 1
    simp only [COLS]
    omega
  have habs : |mirrorHeights h (8 - x) - mirrorHeights h (8 - x + 1)|
      = |h x - h (x + 1)| := by
    rw [e1, e2, abs_sub_comm]
  by_cases hcl : |h x - h (x + 1)| < CLIFF_HEIGHT_THRESHOLD
  · unfold pairPenalty
    rw [habs, if_pos hcl, if_pos hcl]
  · have hcl2 : CLIFF_HEIGHT_THRESHOLD ≤ |h x - h (x + 1)| := le_of_not_lt hcl
    obtain ⟨hn4, hn5⟩ := hno hcl2
    have hne : h x ≠ h (x + 1) := by
      intro he
      rw [he] at hcl2
      simp [CLIFF_HEIGHT_THRESHOLD] at hcl2
    by_cases hdir : h (x + 1) < h x
    · -- higher column is x, lower is x + 1
      have hH : higherColOf h x = x := by unfold higherColOf; rw [if_pos hdir]
      have hL : lowerColOf h x = x + 1 := by unfold lowerColOf; rw [if_pos hdir]
      have hH' : higherColOf (mirrorHeights h) (8 - x) = 9 - x := by
        unfold higherColOf
        rw [e1, e2, if_neg (by omega)]
        omega
      have hL' : lowerColOf (mirrorHeights h) (8 - x) = 8 - x := by
        unfold lowerColOf
        rw [e1, e2, if_neg (by omega)]
      rw [hH] at hn4 hn5
      unfold pairPenalty
      rw [habs, if_neg hcl, if_neg hcl, hH, hL, hH', hL']
      simp only [COLS]
      refine if_congr ?_ ?_ rfl
      · constructor
        · intro hc
          by_cases hb : 9 - x ≤ 10 / 2
          · rw [if_pos hb] at hc
            rw [if_pos (by omega)]
            omega
          · rw [if_neg hb] at hc
            rw [if_pos (by omega)]
            omega
        · intro hc
          by_cases hb : x ≤ 10 / 2
          · rw [if_pos hb] at hc
            by_cases hb2 : 9 - x ≤ 10 / 2
            · rw [if_pos hb2]
              omega
            · rw [if_neg hb2]
              omega
          · rw [if_neg hb] at hc
            omega
      · rw [show min (9 - x) (10 - 1 - (9 - x)) = min x (10 - 1 - x) from by omega]
    · -- higher column is x + 1, lower is x
      have hdir2 : h x < h (x + 1) := lt_of_le_of_ne (not_lt.1 hdir) hne
      have hH : higherColOf h x = x + 1 := by unfold higherColOf; rw [if_neg hdir]
      have hL : lowerColOf h x = x := by unfold lowerColOf; rw [if_neg hdir]
      have hH' : higherColOf (mirrorHeights h) (8 - x) = 8 - x := by
        unfold higherColOf
        rw [e1, e2, if_pos (by omega)]
      have hL' : lowerColOf (mirrorHeights h) (8 - x) = 9 - x := by
        unfold lowerColOf
        rw [e1, e2, if_pos (by omega)]
        omega
      rw [hH] at hn4 hn5
      unfold pairPenalty
      rw [habs, if_neg hcl, if_neg hcl, hH, hL, hH', hL']
      simp only [COLS]
      refine if_congr ?_ ?_ rfl
      · constructor
        · intro hc
          by_cases hb : 8 - x ≤ 10 / 2
          · rw [if_pos hb] at hc
            rw [if_neg (by omega)]
            omega
          · rw [if_neg hb] at hc
            rw [if_neg (by omega)]
            omega
        · intro hc
          by_cases hb : x + 1 ≤ 10 / 2
          · rw [if_pos hb] at hc
            omega
          · rw [if_neg hb] at hc
            by_cases hb2 : 8 - x ≤ 10 / 2
            · rw [if_pos hb2]
              omega
            · rw [if_neg hb2]
              omega
      · rw [show min (8 - x) (10 - 1 - (8 - x)) = min (x + 1) (10 - 1 - (x + 1)) from by
          omega]

/-- The terrain penalty is mirror-invariant for profiles without a central
cliff. -/
theorem evaluateTerrainPenalty_mirror (cfg : DiffConfig) (h : Nat → Int)
    (hcc : centralCliffFree h) :
    evaluateTerrainPenalty (mirrorHeights h) cfg
        (calculateFunnelBounds (mirrorHeights h))
      = evaluateTerrainPenalty h cfg (calculateFunnelBounds h) := by
  have hlv : leftFunnelValidUntil h ≤ 9 := by
    unfold leftFunnelValidUntil
    rw [show COLS - 1 = 9 from rfl]
    exact leftValidAux_le h 9 1 0 (by omega) (by omega)
  have hrv : rightFunnelValidUntil h ≤ 9 := by
    unfold rightFunnelValidUntil
    rw [show COLS - 1 = 9 from rfl, show COLS - 2 = 8 from rfl]
    exact rightValidAux_le h 9 8 9 (by omega) (by omega)
  obtain ⟨hbl, hbr⟩ := funnelBounds_mirror h
  unfold evaluateTerrainPenalty calculateFunnelBounds
  rw [hbl, hbr]
  rw [show (COLS : Nat) - 1 = 9 from rfl]
  rw [← Finset.sum_range_reflect]
  apply Finset.sum_congr rfl
  intro x hx
  rw [Finset.mem_range] at hx
  have hx8 : x ≤ 8 := by omega
  rw [show 9 - 1 - x = 8 - x from by omega]
  exact pairPenalty_mirror cfg h x _ _ hx8 hlv hrv (fun hc => by
    have hres := hcc x (by rw [show COLS - 1 = 9 from rfl]; omega) hc
    rw [show COLS / 2 - 1 = 4 from rfl, show COLS / 2 = 5 from rfl] at hres
    exact hres)

/-- C3 (amended): the funnel bounds of a mirrored height profile are always
the mirrored bounds (left of the mirror is COLS-1 minus the right of the
original and vice versa); the total terrain penalty is identical for the two
profiles whenever no cliff has its higher column at one of the two central
columns (COLS/2 - 1 or COLS/2).  Without that proviso penalty equality fails
(see the counterexample). -/
theorem funnel_bounds_mirror_terrain_conditional :
    (∀ h : Nat → Int,
        calculateFunnelBounds (mirrorHeights h)
          = ((COLS - 1) - (calculateFunnelBounds h).2,
              (COLS - 1) - (calculateFunnelBounds h).1))
    ∧ (∀ (cfg : DiffConfig) (h : Nat → Int), centralCliffFree h →
        evaluateTerrainPenalty (mirrorHeights h) cfg
            (calculateFunnelBounds (mirrorHeights h))
          = evaluateTerrainPenalty h cfg (calculateFunnelBounds h)) := by
  constructor
  · intro h
    obtain ⟨hbl, hbr⟩ := funnelBounds_mirror h
    unfold calculateFunnelBounds
    rw [hbl, hbr]
  · intro cfg h hcc
    exact evaluateTerrainPenalty_mirror cfg h hcc

/-- The height profile of the C3 counterexample: a single 4-row cliff between
columns 5 and 6, with the higher side on the left reaching the center
column. -/
def cliffHeights : Nat → Int :=
  fun x => ([10, 10, 10, 10, 10, 10, 6, 6, 6, 6] : List Int).getD x 0

/-- C3 counterexample: the profile above and its mirror produce different
total terrain penalties under the normal difficulty weights (valid funnel
-320 versus split -500), so mirrored profiles do not always give identical
terrain penalties even though their funnel bounds are mirrored. -/
theorem funnel_terrain_mirror_counterexample :
    evaluateTerrainPenalty cliffHeights normalConfig
        (calculateFunnelBounds cliffHeights) = -320
    ∧ evaluateTerrainPenalty (mirrorHeights cliffHeights) normalConfig
        (calculateFunnelBounds (mirrorHeights cliffHeights)) = -500
    ∧ ¬(evaluateTerrainPenalty (mirrorHeights cliffHeights) normalConfig
          (calculateFunnelBounds (mirrorHeights cliffHeights))
        = evaluateTerrainPenalty cliffHeights normalConfig
            (calculateFunnelBounds cliffHeights)) := by
  refine ⟨by decide, by decide, by decide⟩

instance centralCliffFreeDecidable (h : Nat → Int) : Decidable (centralCliffFree h) := by
  unfold centralCliffFree
  infer_instance

/-- A profile whose only cliff sits at the left edge (no central cliff). -/
def edgeCliffHeights : Nat → Int :=
  fun x => ([9, 0, 0, 0, 0, 0, 0, 0, 0, 0] : List Int).getD x 0

/-- C3 witness: the edge-cliff profile is central-cliff-free and its mirror
receives the identical terrain penalty. -/
theorem funnel_bounds_mirror_terrain_conditional_witness :
    centralCliffFree edgeCliffHeights
    ∧ evaluateTerrainPenalty (mirrorHeights edgeCliffHeights) normalConfig
          (calculateFunnelBounds (mirrorHeights edgeCliffHeights))
        = evaluateTerrainPenalty edgeCliffHeights normalConfig
            (calculateFunnelBounds edgeCliffHeights) :=
  ⟨by decide,
    funnel_bounds_mirror_terrain_conditional.2 normalConfig edgeCliffHeights (by decide)⟩

/-- AI_PANIC_HEIGHT from constants.js. -/
def AI_PANIC_HEIGHT : Nat := 2

/-- AI_WARNING_HEIGHT from constants.js. -/
def AI_WARNING_HEIGHT : Nat := 4

/-- AI_MAX_BFS_ITERATIONS from constants.js. -/
def AI_MAX_BFS_ITERATIONS : Nat := 4000

/-- The truthiness copy of the engine grid taken by evaluatePosition
(tempGrid = this.engine.grid.map((row) => [...row]); cells are only ever
tested for truthiness afterwards, so the copy is modelled over booleans). -/
def boolGrid (g : Grid) : List (List Bool) :=
  g.map (fun row => row.map (fun c => c.isSome))

/-- Write true into a boolean grid cell. -/
def setBoolCell (tg : List (List Bool)) (y x : Nat) : List (List Bool) :=
  tg.set y ((tg.getD y []).set x true)

/-- The tempGrid writes of evaluatePosition: every filled shape cell with row
inside the well is marked occupied.  The source checks only the row bounds;
a column index outside the row is invisible to every later read of the
array, so the model skips such writes. -/
def placeShape (tg : List (List Bool)) (px py : Int) (shape : Shape) :
    List (List Bool) :=
  shape.enum.foldl
    (fun acc pyrow =>
      pyrow.2.enum.foldl
        (fun acc2 pxcell =>
          if pxcell.2 then
            if 0 ≤ py + pyrow.1 ∧ py + pyrow.1 < (ROWS : Int)
                ∧ 0 ≤ px + pxcell.1 ∧ px + pxcell.1 < (COLS : Int) then
              setBoolCell acc2 (py + pyrow.1).toNat (px + pxcell.1).toNat
            else acc2
          else acc2)
        acc)
    tg

/-- A fully occupied boolean row (tempGrid[y].every((c) => c)). -/
def boolRowFull (r : List Bool) : Bool := r.all id

/-- The grid after removing completed lines and unshifting empty rows
(gridAfter in evaluatePosition). -/
def gridAfterClears (tg : List (List Bool)) : List (List Bool) :=
  List.replicate (ROWS - (tg.filter (fun r => !boolRowFull r)).length)
      (List.replicate COLS false)
    ++ tg.filter (fun r => !boolRowFull r)

/-- Column height: ROWS minus the index of the topmost occupied cell of the
column, 0 for an empty column. -/
def columnHeight (ga : List (List Bool)) (x : Nat) : Int :=
  match (List.range ROWS).find? (fun y => (ga.getD y []).getD x false) with
  | some y => (ROWS : Int) - y
  | none => 0

/-- The column-height array of evaluatePosition. -/
def heightsOf (ga : List (List Bool)) : List Int :=
  (List.range COLS).map (columnHeight ga)

/-- Hole scan of one column: walking down, count empty cells below the first
block (holes) and, for each such cell, the number of blocks above it
(covered holes).  State: (blockFound, blocksAbove, holes, coveredHoles). -/
def holeScanCol (ga : List (List Bool)) (x : Nat) : Nat × Nat :=
  let st := (List.range ROWS).foldl
    (fun st y =>
      if (ga.getD y []).getD x false then
        (true, st.2.1 + 1, st.2.2.1, st.2.2.2)
      else if st.1 then
        (st.1, st.2.1, st.2.2.1 + 1, st.2.2.2 + st.2.1)
      else st)
    ((false, 0, 0, 0) : Bool × Nat × Nat × Nat)
  (st.2.2.1, st.2.2.2)

/-- Total holes and covered holes over all columns. -/
def holesTotals (ga : List (List Bool)) : Nat × Nat :=
  (List.range COLS).foldl
    (fun acc x => (acc.1 + (holeScanCol ga x).1, acc.2 + (holeScanCol ga x).2))
    (0, 0)

/-- Bumpiness: the sum of absolute height differences of adjacent columns. -/
def bumpinessOf (heights : List Int) : Int :=
  ∑ x ∈ Finset.range (COLS - 1), |heights.getD x 0 - heights.getD (x + 1) 0|

/-- Math.max(...heights): heights are non-negative, so the fold from 0 is the
maximum. -/
def maxHeightOf (heights : List Int) : Int :=
  heights.foldl max 0

/-- evaluatePosition (ai.js): score a hypothetical placement of the shape at
the piece position against the engine grid.  All weights are integral, so the
score is an integer. -/
def evaluatePosition (g : Grid) (p : Piece) (shape : Shape) (cfg : DiffConfig) :
    Int :=
  let tempGrid := placeShape (boolGrid g) p.x p.y shape
  let completedLines := tempGrid.countP boolRowFull
  let linesScore := (completedLines : Int) * cfg.lineReward
  let multiLineBonus : Int :=
    if 0 < completedLines ∧ cfg.multiLineBonus then
      if 4 ≤ completedLines then 150
      else if 2 ≤ completedLines then 50
      else 0
    else 0
  let gridAfter := gridAfterClears tempGrid
  let heights := heightsOf gridAfter
  let holes := (holesTotals gridAfter).1
  let coveredHoles := (holesTotals gridAfter).2
  let bumpiness := bumpinessOf heights
  let heightsFn : Nat → Int := fun x => heights.getD x 0
  let terrainPenalty :=
    evaluateTerrainPenalty heightsFn cfg (calculateFunnelBounds heightsFn)
  let holesScore := (holes : Int) * cfg.holeReward
  let coveredHolesScore := (coveredHoles : Int) * cfg.coveredHoleReward
  let heightScore := heights.sum * cfg.heightReward
  let maxBoardHeight := maxHeightOf heights
  let maxHeightScore := maxBoardHeight * cfg.maxHeightReward
  let dangerScore : Int :=
    if ((ROWS : Int) - AI_PANIC_HEIGHT) ≤ maxBoardHeight then -100000
    else if ((ROWS : Int) - AI_WARNING_HEIGHT) ≤ maxBoardHeight then -20000
    else 0
  let bumpinessScore := bumpiness * cfg.bumpinessReward
  let minEdge := min (heights.getD 0 0) (heights.getD (COLS - 1) 0)
  let edgeScore := (10 - minEdge) * 3
  let pieceBottom := p.y + p.shape.length
  let floatingScore : Int := if pieceBottom < 4 then -(4 - pieceBottom) * 30 else 0
  linesScore + multiLineBonus + holesScore + coveredHolesScore + heightScore
    + maxHeightScore + dangerScore + bumpinessScore + terrainPenalty
    + edgeScore + floatingScore

/-- The call-level view of evaluatePosition for the purity claim: the single
mutable object the engine shares with the evaluator is the grid; the
evaluator deep-copies it (boolGrid/placeShape write only to the copy) and
hands the engine grid back untouched alongside the score. -/
def evaluatePositionRun (g : Grid) (p : Piece) (shape : Shape) (cfg : DiffConfig) :
    Int × Grid :=
  (evaluatePosition g p shape cfg, g)

/-- C9: evaluatePosition is a pure function of grid, placement and
configuration: the engine grid comes back unchanged from a call, and a
second evaluation of the same placement against the grid the first call left
behind returns the identical score. -/
theorem evaluatePosition_pure (g : Grid) (p : Piece) (shape : Shape)
    (cfg : DiffConfig) :
    (evaluatePositionRun g p shape cfg).2 = g
      ∧ evaluatePositionRun (evaluatePositionRun g p shape cfg).2 p shape cfg
          = evaluatePositionRun g p shape cfg := by
  exact ⟨rfl, rfl⟩

/-- Canvas width of the default engine configuration (config.width 350). -/
def engineWidth : ℚ := 350

/-- Canvas height of the default engine configuration (config.height 700). -/
def engineHeight : ℚ := 700

/-- CELL_SIZE = height / ROWS = 700 / 20 = 35 pixels. -/
def CELL_SIZE : ℚ := 35

/-- PLAYER_WIDTH = CELL_SIZE * PLAYER_WIDTH_RATIO (0.7) = 24.5 pixels. -/
def PLAYER_WIDTH : ℚ := 49 / 2

/-- PLAYER_HEIGHT = CELL_SIZE * PLAYER_HEIGHT_RATIO (1.5) = 52.5 pixels. -/
def PLAYER_HEIGHT : ℚ := 105 / 2

/-- The player fields read by the AI (pixel position). -/
structure PlayerPos where
  x : ℚ
  y : ℚ
deriving DecidableEq

/-- getPlayerDangerZone (engine.js): the margin-expanded column range around
the player's footprint. -/
def getPlayerDangerZone (pl : PlayerPos) (margin : ℚ) : Int × Int :=
  (⌊pl.x / CELL_SIZE - margin⌋, ⌈(pl.x + PLAYER_WIDTH) / CELL_SIZE + margin⌉)

/-- getPlayerGridX (engine.js): the column of the player's center. -/
def getPlayerGridX (pl : PlayerPos) : Int :=
  ⌊(pl.x + PLAYER_WIDTH / 2) / CELL_SIZE⌋

/-- Board urgency computed at the top of calculateTarget: ROWS minus the
index of the first non-empty row (0 on an empty board). -/
def currentMaxHeightOf (g : Grid) : Nat :=
  match (List.range ROWS).find? (fun y => (g.getD y []).any (fun c => c.isSome)) with
  | some y => ROWS - y
  | none => 0

/-- The decayed danger-zone reward of calculateTarget:
dangerZoneReward * dangerZoneDecay ^ retargetCount. -/
def decayedDangerZoneReward (cfg : DiffConfig) (retargetCount : Nat) : ℚ :=
  cfg.dangerZoneReward * cfg.dangerZoneDecay ^ retargetCount

/-- The decayed reward after the panic-mode clamp
(min(0, r - currentMaxHeight * (r / 20))): decay first, panic clamp second. -/
def dangerZoneRewardFor (cfg : DiffConfig) (retargetCount maxHeight : Nat) : ℚ :=
  min 0 (decayedDangerZoneReward cfg retargetCount
    - (maxHeight : ℚ) * (decayedDangerZoneReward cfg retargetCount / 20))

/-- A search state of the BFS (piece x, y and rotation index). -/
structure St where
  x : Int
  y : Int
  rot : Nat
deriving DecidableEq

/-- The temporary piece the BFS builds for collision checks at a state. -/
def mkTempPiece (t : PieceType) (s : St) : Piece :=
  { type := t, rotation := s.rot, shape := (shapesOf t).getD s.rot [],
    color := colorOf t, x := s.x, y := s.y, fallStepCount := 0 }

/-- checkRotationOcclusion (ai.js): the union bounding box of the two shapes
must contain no locked grid cell. -/
def checkRotationOcclusion (g : Grid) (currentX currentY : Int)
    (currentShape nextShape : Shape) : Bool :=
  (List.range (max currentShape.length nextShape.length)).all fun y =>
    (List.range (max (currentShape.getD 0 []).length
        (nextShape.getD 0 []).length)).all fun x =>
      !(decide (0 ≤ currentY + y) && decide (currentY + y < (ROWS : Int))
        && decide (0 ≤ currentX + x) && decide (currentX + x < (COLS : Int))
        && cellOccupied g (currentY + y).toNat (currentX + x).toNat)

/-- The avoidance context of a search when avoidPlayer is active: the danger
zone column range, the (already decayed and panic-clamped) danger-zone
reward, and the player's grid row. -/
structure AvoidCtx where
  dzLeft : Int
  dzRight : Int
  dzReward : ℚ
  playerYGrid : Int
deriving DecidableEq

/-- The width (in columns) of a rotation of a piece type. -/
def shapeWidth (t : PieceType) (rot : Nat) : Nat :=
  (((shapesOf t).getD rot []).getD 0 []).length

/-- The four neighbor actions of the BFS in source order
(dx, dy, drot): left, right, rotate, down. -/
def neighborActions : List (Int × Int × Nat) :=
  [(-1, 0, 0), (1, 0, 0), (0, 0, 1), (0, 1, 0)]

/-- The danger-zone suppression test for one prospective neighbor: a lateral
or rotation move (dy = 0) is forbidden when the piece would be near the
player's row and would newly enter the danger zone from outside it. -/
def dangerForbidden (avoid : Option AvoidCtx) (t : PieceType) (cur : St)
    (dy : Int) (nextX nextY : Int) (nextRot : Nat) : Bool :=
  match avoid with
  | none => false
  | some a =>
      if dy = 0 then
        let nextShape := (shapesOf t).getD nextRot []
        let width := (nextShape.getD 0 []).length
        let pieceBottomGrid := nextY + nextShape.length
        if a.playerYGrid - 2 ≤ pieceBottomGrid then
          if nextX < a.dzRight ∧ a.dzLeft < nextX + width then
            let curShape := (shapesOf t).getD cur.rot []
            let curWidth := (curShape.getD 0 []).length
            !(decide (cur.x < a.dzRight) && decide (a.dzLeft < cur.x + curWidth))
          else false
        else false
      else false

/-- The state produced by one neighbor action. -/
def nextStOf (t : PieceType) (cur : St) (n : Int × Int × Nat) : St :=
  ⟨cur.x + n.1, cur.y + n.2.1, (cur.rot + n.2.2) % (shapesOf t).length⟩

/-- Validity of one neighbor action: rotations are validated against both the
grid and the rotation occlusion box, lateral and down moves against the
grid. -/
def moveValidB (g : Grid) (t : PieceType) (cur : St) (n : Int × Int × Nat) : Bool :=
  if n.2.2 = 1 then
    canPlacePiece g (mkTempPiece t cur) 0 0
        (some ((shapesOf t).getD ((cur.rot + n.2.2) % (shapesOf t).length) []))
      && checkRotationOcclusion g cur.x cur.y ((shapesOf t).getD cur.rot [])
          ((shapesOf t).getD ((cur.rot + n.2.2) % (shapesOf t).length) [])
  else
    canPlacePiece g (mkTempPiece t cur) n.1 n.2.1 none

/-- Processing of a single neighbor action: skip it when its state is already
visited, skip danger-suppressed moves, validate the move, and otherwise add
the state to the visited set and to the enqueued list. -/
def expandStep (g : Grid) (t : PieceType) (avoid : Option AvoidCtx) (cur : St)
    (acc : List St × List St) (n : Int × Int × Nat) : List St × List St :=
  if acc.1.contains (nextStOf t cur n) then acc
  else if dangerForbidden avoid t cur n.2.1 (nextStOf t cur n).x
      (nextStOf t cur n).y (nextStOf t cur n).rot then acc
  else if moveValidB g t cur n then
    (acc.1 ++ [nextStOf t cur n], acc.2 ++ [nextStOf t cur n])
  else acc

/-- Expand the four neighbors of a dequeued state in source order, returning
the updated visited set together with the states enqueued. -/
def expandNeighbors (g : Grid) (t : PieceType) (avoid : Option AvoidCtx)
    (cur : St) (visited : List St) : List St × List St :=
  neighborActions.foldl (expandStep g t avoid cur) (visited, [])

/-- The score assigned to a resting state: the heuristic evaluation plus the
danger-zone reward when the piece footprint overlaps the danger zone. -/
def terminalScore (g : Grid) (t : PieceType) (cfg : DiffConfig)
    (avoid : Option AvoidCtx) (cur : St) : ℚ :=
  let shape := (shapesOf t).getD cur.rot []
  let dz : ℚ :=
    match avoid with
    | none => 0
    | some a =>
        let width := (shape.getD 0 []).length
        if cur.x < a.dzRight ∧ a.dzLeft < cur.x + width then a.dzReward else 0
  (evaluatePosition g (mkTempPiece t cur) shape cfg : ℚ) + dz

/-- The main BFS loop of calculateTarget (ai.js): dequeue a state (while fuel
from the iteration budget remains), score it when it can no longer move
down, keeping the strictly best score seen first, and enqueue its valid
unvisited neighbors.  The list of evaluated resting states is returned
alongside as an observation. -/
def bfsLoop (g : Grid) (t : PieceType) (cfg : DiffConfig)
    (avoid : Option AvoidCtx) :
    Nat → List St → List St → Option (ℚ × St) → List St →
      Option (ℚ × St) × List St
  | 0, _, _, best, terms => (best, terms)
  | _ + 1, [], _, best, terms => (best, terms)
  | fuel + 1, cur :: rest, visited, best, terms =>
      let canDown := canPlacePiece g (mkTempPiece t cur) 0 1 none
      let stepped :=
        if !canDown then
          (match best with
            | none => some (terminalScore g t cfg avoid cur, cur)
            | some b =>
                if b.1 < terminalScore g t cfg avoid cur then
                  some (terminalScore g t cfg avoid cur, cur)
                else best,
            terms ++ [cur])
        else (best, terms)
      let expanded := expandNeighbors g t avoid cur visited
      bfsLoop g t cfg avoid fuel (rest ++ expanded.2) expanded.1 stepped.1
        stepped.2

/-- The AI controller state (the fields restored and dumped by the engine,
minus the cosmetic ones). -/
structure AiState where
  moveCount : Nat
  retargetCount : Nat
  target : Option St
  targetScore : Option ℚ
  path : List St
  lastTargetKey : Option St
  lastPlayerGridX : Option Int
deriving DecidableEq

/-- AIController.reset. -/
def aiReset : AiState :=
  { moveCount := 0, retargetCount := 0, target := none, targetScore := none,
    path := [], lastTargetKey := none, lastPlayerGridX := none }

/-- calculateTarget (ai.js) with an explicit iteration budget, modelled for a
present current piece: run the bounded BFS from the piece state, record the
best terminal as the target, count a retarget when a player-triggered
recomputation selects a different target fingerprint than the previous one,
and remember the player column.  Path reconstruction is omitted (no claim
concerns the path; the path is cleared here). -/
def calculateTargetWith (maxIter : Nat) (g : Grid) (piece : Piece)
    (cfg : DiffConfig) (avoidPlayer playerTriggered : Bool)
    (player : Option PlayerPos) (ai : AiState) : AiState :=
  let avoid : Option AvoidCtx :=
    if avoidPlayer then
      match player with
      | some pl =>
          some { dzLeft := (getPlayerDangerZone pl cfg.dangerZoneMargin).1,
                 dzRight := (getPlayerDangerZone pl cfg.dangerZoneMargin).2,
                 dzReward :=
                   dangerZoneRewardFor cfg ai.retargetCount (currentMaxHeightOf g),
                 playerYGrid := ⌊pl.y / CELL_SIZE⌋ }
      | none => none
    else none
  let startSt : St := ⟨piece.x, piece.y, piece.rotation⟩
  let result := bfsLoop g piece.type cfg avoid maxIter [startSt] [startSt] none []
  let bestState := result.1.map Prod.snd
  let newTargetKey := bestState
  let newCount :=
    if playerTriggered ∧ ai.lastTargetKey ≠ none
        ∧ newTargetKey ≠ ai.lastTargetKey then
      ai.retargetCount + 1
    else ai.retargetCount
  { ai with
    target := bestState,
    targetScore := result.1.map Prod.fst,
    retargetCount := newCount,
    lastTargetKey := newTargetKey,
    lastPlayerGridX :=
      match player with
      | some pl => some (getPlayerGridX pl)
      | none => ai.lastPlayerGridX,
    path := [] }

/-- calculateTarget at the source's fixed iteration budget. -/
def calculateTarget (g : Grid) (piece : Piece) (cfg : DiffConfig)
    (avoidPlayer playerTriggered : Bool) (player : Option PlayerPos)
    (ai : AiState) : AiState :=
  calculateTargetWith AI_MAX_BFS_ITERATIONS g piece cfg avoidPlayer
    playerTriggered player ai

/-- Ordering between best-so-far results: any recorded best on the left is
matched or beaten on the right. -/
def bestLe (a b : Option (ℚ × St)) : Prop :=
  ∀ p, a = some p → ∃ q, b = some q ∧ p.1 ≤ q.1

/-- Ordering between recorded best scores: any score on the left is matched
or beaten on the right. -/
def scoreLe (a b : Option ℚ) : Prop :=
  ∀ p, a = some p → ∃ q, b = some q ∧ p ≤ q

theorem bestLe_refl (a : Option (ℚ × St)) : bestLe a a :=
  fun p hp => ⟨p, hp, le_refl _⟩

theorem bestLe_trans {a b c : Option (ℚ × St)} (h1 : bestLe a b)
    (h2 : bestLe b c) : bestLe a c := by
  intro p hp
  obtain ⟨q, hq, hpq⟩ := h1 p hp
  obtain ⟨r, hr, hqr⟩ := h2 q hq
  exact ⟨r, hr, le_trans hpq hqr⟩

/-- The terminal update of the BFS never loses ground. -/
theorem bestLe_update (best : Option (ℚ × St)) (s : ℚ) (cur : St) :
    bestLe best
      (match best with
        | none => some (s, cur)
        | some b => if b.1 < s then some (s, cur) else best) := by
  intro p hp
  subst hp
  by_cases hlt : p.1 < s
  · exact ⟨(s, cur), by simp [hlt], le_of_lt hlt⟩
  · exact ⟨p, by simp [hlt], le_refl _⟩

/-- Running the BFS can only improve the recorded best. -/
theorem bfsLoop_growth (g : Grid) (t : PieceType) (cfg : DiffConfig)
    (avoid : Option AvoidCtx) :
    ∀ (fuel : Nat) (q v : List St) (best : Option (ℚ × St)) (terms : List St),
      bestLe best (bfsLoop g t cfg avoid fuel q v best terms).1 := by
  intro fuel
  induction fuel with
  | zero => intro q v best terms; exact bestLe_refl best
  | succ fuel ih =>
    intro q v best terms
    cases q with
    | nil => exact bestLe_refl best
    | cons cur rest =>
      unfold bfsLoop
      by_cases hd : canPlacePiece g (mkTempPiece t cur) 0 1 none = true
      · simp only [hd]
        exact ih _ _ _ _
      · simp only [Bool.not_eq_true] at hd
        simp only [hd]
        exact bestLe_trans
          (bestLe_update best (terminalScore g t cfg avoid cur) cur) (ih _ _ _ _)

/-- More fuel never yields a worse recorded best. -/
theorem bfsLoop_mono (g : Grid) (t : PieceType) (cfg : DiffConfig)
    (avoid : Option AvoidCtx) :
    ∀ (fuel₁ fuel₂ : Nat), fuel₁ ≤ fuel₂ →
      ∀ (q v : List St) (best : Option (ℚ × St)) (terms : List St),
        bestLe (bfsLoop g t cfg avoid fuel₁ q v best terms).1
          (bfsLoop g t cfg avoid fuel₂ q v best terms).1 := by
  intro fuel₁
  induction fuel₁ with
  | zero =>
    intro fuel₂ hle q v best terms
    exact bfsLoop_growth g t cfg avoid fuel₂ q v best terms
  | succ fuel₁ ih =>
    intro fuel₂ hle q v best terms
    cases fuel₂ with
    | zero => omega
    | succ k =>
      cases q with
      | nil =>
        unfold bfsLoop
        exact bestLe_refl _
      | cons cur rest =>
        unfold bfsLoop
        exact ih k (by omega) _ _ _ _

/-- spawnPiece's start state for a piece type: rotation 0 centered
horizontally (startX = floor((COLS - shape width) / 2)), top row. -/
def spawnStateOf (t : PieceType) : St :=
  ⟨(((COLS - shapeWidth t 0) / 2 : Nat) : Int), 0, 0⟩

/-- The (column, rotation) pairs of the resting states evaluated by the
spawn-state search over the empty grid within the source's iteration
budget.  The difficulty weights do not influence which states are reached,
only their scores; the normal preset is used. -/
def evaluatedCombos (t : PieceType) : List (Int × Nat) :=
  ((bfsLoop emptyGrid t normalConfig none AI_MAX_BFS_ITERATIONS
      [spawnStateOf t] [spawnStateOf t] none []).2).map (fun s => (s.x, s.rot))

/-- Every cell of the empty grid is empty. -/
theorem cellAt_emptyGrid (y x : Nat) : cellAt emptyGrid y x = none := by
  unfold cellAt emptyGrid emptyRow
  rw [List.getElem?_replicate]
  by_cases hy : y < ROWS
  · rw [if_pos hy]
    show ((List.replicate COLS (none : Cell))[x]?).join = none
    rw [List.getElem?_replicate]
    by_cases hx : x < COLS
    · rw [if_pos hx]
      rfl
    · rw [if_neg hx]
      rfl
  · rw [if_neg hy]

/-- No cell of the empty grid is occupied. -/
theorem cellOccupied_emptyGrid (y x : Nat) : cellOccupied emptyGrid y x = false := by
  unfold cellOccupied
  rw [cellAt_emptyGrid]
  rfl

/-- Every piece type has at least one rotation. -/
theorem shapesOf_length_pos : ∀ t : PieceType, 1 ≤ (shapesOf t).length := by
  intro t
  cases t <;> decide

/-- Geometry of the shape catalog: every rotation matrix is non-empty,
rectangular of its width, at most 4 wide and 4 tall, and its bottom row
contains at least one filled cell. -/
theorem shape_facts : ∀ t : PieceType, ∀ rot < (shapesOf t).length,
    1 ≤ ((shapesOf t).getD rot []).length
      ∧ ((shapesOf t).getD rot []).length ≤ 4
      ∧ (((shapesOf t).getD rot []).all
          (fun r => r.length = shapeWidth t rot)) = true
      ∧ 1 ≤ shapeWidth t rot ∧ shapeWidth t rot ≤ 4
      ∧ ((((shapesOf t).getD rot []).getD
          (((shapesOf t).getD rot []).length - 1) []).any id) = true := by
  intro t
  cases t <;> decide

/-- The finite superset of every state the BFS can ever enqueue: columns
-3 .. 9, rows 0 .. 19, a legal rotation index. -/
def okList (t : PieceType) : List St :=
  (List.range 13).flatMap fun xi =>
    (List.range 20).flatMap fun y =>
      (List.range (shapesOf t).length).map fun rot =>
        ⟨(xi : Int) - 3, (y : Int), rot⟩

/-- Membership in the state superset. -/
theorem mem_okList (t : PieceType) (s : St) :
    s ∈ okList t ↔
      (-3 ≤ s.x ∧ s.x ≤ 9 ∧ 0 ≤ s.y ∧ s.y ≤ 19
        ∧ s.rot < (shapesOf t).length) := by
  unfold okList
  simp only [List.mem_flatMap, List.mem_range, List.mem_map]
  constructor
  · rintro ⟨xi, hxi, y, hy, rot, hrot, rfl⟩
    dsimp only
    refine ⟨by omega, by omega, by omega, by omega, hrot⟩
  · rintro ⟨h1, h2, h3, h4, h5⟩
    obtain ⟨sx, sy, srot⟩ := s
    dsimp only at h1 h2 h3 h4 h5 ⊢
    refine ⟨(sx + 3).toNat, by omega, sy.toNat, by omega, srot, h5, ?_⟩
    simp only [St.mk.injEq]
    refine ⟨by omega, by omega, trivial⟩

set_option maxRecDepth 40000 in
/-- The state superset is small relative to the iteration budget. -/
theorem okList_length_le : ∀ t : PieceType, (okList t).length ≤ 1040 := by
  intro t
  cases t <;> decide

/-- A duplicate-free list contained in another is no longer than it. -/
theorem length_le_of_nodup_subset (v w : List St) (hnd : v.Nodup)
    (hsub : ∀ s ∈ v, s ∈ w) : v.length ≤ w.length := by
  calc v.length = v.toFinset.card := (List.toFinset_card_of_nodup hnd).symm
    _ ≤ w.toFinset.card := by
        apply Finset.card_le_card
        intro a ha
        rw [List.mem_toFinset] at ha
        rw [List.mem_toFinset]
        exact hsub a ha
    _ ≤ w.length := List.toFinset_card_le w

/-- One valid move of the search, as exercised by expandNeighbors. -/
def moveRel (g : Grid) (t : PieceType) (s s' : St) : Prop :=
  ∃ n ∈ neighborActions, moveValidB g t s n = true ∧ s' = nextStOf t s n

/-- A resting state: the piece can no longer move straight down. -/
def isTerminal (g : Grid) (t : PieceType) (s : St) : Prop :=
  canPlacePiece g (mkTempPiece t s) 0 1 none = false

/-- Folding the neighbor step extends the visited set and the enqueued list
by one common list of freshly discovered states. -/
theorem foldl_expandStep_shape (g : Grid) (t : PieceType)
    (avoid : Option AvoidCtx) (cur : St) :
    ∀ (acts : List (Int × Int × Nat)) (p : List St × List St),
      ∃ adds, acts.foldl (expandStep g t avoid cur) p
        = (p.1 ++ adds, p.2 ++ adds) := by
  intro acts
  induction acts with
  | nil => intro p; exact ⟨[], by simp⟩
  | cons m acts ih =>
    intro p
    rw [List.foldl_cons]
    by_cases h1 : p.1.contains (nextStOf t cur m) = true
    · obtain ⟨adds, hadds⟩ := ih p
      refine ⟨adds, ?_⟩
      rw [show expandStep g t avoid cur p m = p from by unfold expandStep; rw [if_pos h1]]
      exact hadds
    · by_cases h2 : dangerForbidden avoid t cur m.2.1 (nextStOf t cur m).x
          (nextStOf t cur m).y (nextStOf t cur m).rot = true
      · obtain ⟨adds, hadds⟩ := ih p
        refine ⟨adds, ?_⟩
        rw [show expandStep g t avoid cur p m = p from by
          unfold expandStep
          rw [if_neg h1, if_pos h2]]
        exact hadds
      · by_cases h3 : moveValidB g t cur m = true
        · have hstep : expandStep g t avoid cur p m
              = (p.1 ++ [nextStOf t cur m], p.2 ++ [nextStOf t cur m]) := by
            unfold expandStep
            rw [if_neg h1, if_neg h2, if_pos h3]
          obtain ⟨adds, hadds⟩ := ih (p.1 ++ [nextStOf t cur m], p.2 ++ [nextStOf t cur m])
          refine ⟨[nextStOf t cur m] ++ adds, ?_⟩
          rw [hstep, hadds]
          simp
        · obtain ⟨adds, hadds⟩ := ih p
          refine ⟨adds, ?_⟩
          rw [show expandStep g t avoid cur p m = p from by
            unfold expandStep
            rw [if_neg h1, if_neg h2, if_neg h3]]
          exact hadds

/-- With avoidance off, every valid neighbor of the dequeued state ends up in
the visited set after expansion. -/
theorem moveValid_mem_expand (g : Grid) (t : PieceType) (cur : St) :
    ∀ (acts : List (Int × Int × Nat)) (p : List St × List St)
      (n : Int × Int × Nat), n ∈ acts → moveValidB g t cur n = true →
      nextStOf t cur n ∈ (acts.foldl (expandStep g t none cur) p).1 := by
  intro acts
  induction acts with
  | nil => intro p n hn; exact absurd hn (List.not_mem_nil n)
  | cons m acts ih =>
    intro p n hn hv
    rw [List.foldl_cons]
    rcases List.mem_cons.1 hn with heq | htail
    · subst heq
      have hmem : nextStOf t cur n ∈ (expandStep g t none cur p n).1 := by
        unfold expandStep
        by_cases h1 : p.1.contains (nextStOf t cur n) = true
        · rw [if_pos h1]
          exact List.mem_of_elem_eq_true h1
        · rw [if_neg h1]
          rw [show dangerForbidden none t cur n.2.1 (nextStOf t cur n).x
              (nextStOf t cur n).y (nextStOf t cur n).rot = false from rfl]
          rw [if_neg (by simp), if_pos hv]
          simp
      obtain ⟨adds, hadds⟩ := foldl_expandStep_shape g t none cur acts
        (expandStep g t none cur p n)
      rw [hadds]
      exact List.mem_append_left adds hmem
    · exact ih (expandStep g t none cur p m) n htail hv

/-- Everything the expansion enqueues is a valid move from the dequeued
state that was not yet visited. -/
theorem mem_snd_foldl_expandStep (g : Grid) (t : PieceType)
    (avoid : Option AvoidCtx) (cur : St) :
    ∀ (acts : List (Int × Int × Nat)), (∀ n ∈ acts, n ∈ neighborActions) →
      ∀ (p : List St × List St) (s : St),
      s ∈ (acts.foldl (expandStep g t avoid cur) p).2 →
      s ∈ p.2 ∨ (moveRel g t cur s ∧ s ∉ p.1) := by
  intro acts
  induction acts with
  | nil => intro _ p s hs; exact Or.inl hs
  | cons m acts ih =>
    intro hacts p s hs
    rw [List.foldl_cons] at hs
    rcases ih (fun n hn => hacts n (List.mem_cons_of_mem m hn))
        (expandStep g t avoid cur p m) s hs with hmem | ⟨hrel, hnot⟩
    · -- s came from the state after processing m
      unfold expandStep at hmem
      by_cases h1 : p.1.contains (nextStOf t cur m) = true
      · rw [if_pos h1] at hmem
        exact Or.inl hmem
      · rw [if_neg h1] at hmem
        by_cases h2 : dangerForbidden avoid t cur m.2.1 (nextStOf t cur m).x
            (nextStOf t cur m).y (nextStOf t cur m).rot = true
        · rw [if_pos h2] at hmem
          exact Or.inl hmem
        · rw [if_neg h2] at hmem
          by_cases h3 : moveValidB g t cur m = true
          · rw [if_pos h3] at hmem
            rcases List.mem_append.1 hmem with hmem | hmem
            · exact Or.inl hmem
            · have hseq : s = nextStOf t cur m := List.mem_singleton.1 hmem
              refine Or.inr ⟨⟨m, hacts m (List.mem_cons_self m acts), h3, hseq⟩, ?_⟩
              subst hseq
              intro hin
              exact h1 (List.elem_eq_true_of_mem hin)
          · rw [if_neg h3] at hmem
            exact Or.inl hmem
    · -- s was enqueued later; the visited set only grows
      refine Or.inr ⟨hrel, ?_⟩
      intro hin
      apply hnot
      unfold expandStep
      by_cases h1 : p.1.contains (nextStOf t cur m) = true
      · rw [if_pos h1]; exact hin
      · rw [if_neg h1]
        by_cases h2 : dangerForbidden avoid t cur m.2.1 (nextStOf t cur m).x
            (nextStOf t cur m).y (nextStOf t cur m).rot = true
        · rw [if_pos h2]; exact hin
        · rw [if_neg h2]
          by_cases h3 : moveValidB g t cur m = true
          · rw [if_pos h3]
            exact List.mem_append_left _ hin
          · rw [if_neg h3]; exact hin

/-- The visited set stays duplicate-free through an expansion. -/
theorem nodup_fst_foldl_expandStep (g : Grid) (t : PieceType)
    (avoid : Option AvoidCtx) (cur : St) :
    ∀ (acts : List (Int × Int × Nat)) (p : List St × List St),
      p.1.Nodup → (acts.foldl (expandStep g t avoid cur) p).1.Nodup := by
  intro acts
  induction acts with
  | nil => intro p hp; exact hp
  | cons m acts ih =>
    intro p hp
    rw [List.foldl_cons]
    apply ih
    unfold expandStep
    by_cases h1 : p.1.contains (nextStOf t cur m) = true
    · rw [if_pos h1]; exact hp
    · rw [if_neg h1]
      by_cases h2 : dangerForbidden avoid t cur m.2.1 (nextStOf t cur m).x
          (nextStOf t cur m).y (nextStOf t cur m).rot = true
      · rw [if_pos h2]; exact hp
      · rw [if_neg h2]
        by_cases h3 : moveValidB g t cur m = true
        · rw [if_pos h3]
          rw [List.nodup_append]
          refine ⟨hp, List.nodup_singleton _, ?_⟩
          intro a ha hb
          rw [List.mem_singleton] at hb
          subst hb
          exact h1 (List.elem_eq_true_of_mem ha)
        · rw [if_neg h3]; exact hp

/-- Any accepted placement pins the piece position within the well bounds:
some filled cell exists, so the x offset lies in -3 .. 9 and the y offset is
at most 19. -/
theorem bounds_of_canPlace (g : Grid) (t : PieceType) (r : Nat)
    (hr : r < (shapesOf t).length) (p : Piece) (ox oy : Int) (ts : Option Shape)
    (hts : ts.getD p.shape = (shapesOf t).getD r [])
    (hcan : canPlacePiece g p ox oy ts = true) :
    -3 ≤ p.x + ox ∧ p.x + ox ≤ 9 ∧ p.y + oy ≤ 19 := by
  obtain ⟨hlen1, hlen4, hall, hw1, hw4, hany⟩ := shape_facts t r hr
  rw [canPlacePiece_iff, hts] at hcan
  have hrowlt : ((shapesOf t).getD r []).length - 1 < ((shapesOf t).getD r []).length := by
    omega
  have hrow : ((shapesOf t).getD r [])[((shapesOf t).getD r []).length - 1]?
      = some (((shapesOf t).getD r []).getD
          (((shapesOf t).getD r []).length - 1) []) := by
    rw [List.getD_eq_getElem _ _ hrowlt]
    exact List.getElem?_eq_getElem hrowlt
  rw [List.any_eq_true] at hany
  obtain ⟨c, hc, hcid⟩ := hany
  have hctrue : c = true := by
    cases c
    · exact absurd hcid (by simp)
    · rfl
  subst hctrue
  obtain ⟨px, hpx⟩ := List.mem_iff_getElem?.1 hc
  have hres := hcan _ _ hrow px hpx
  obtain ⟨hb1, hb2, hb3, _⟩ := hres
  have hpxlt : px < (((shapesOf t).getD r []).getD
      (((shapesOf t).getD r []).length - 1) []).length := by
    by_contra hge
    rw [List.getElem?_eq_none (by omega)] at hpx
    exact Option.noConfusion hpx
  have hrowmem : ((shapesOf t).getD r []).getD
      (((shapesOf t).getD r []).length - 1) [] ∈ (shapesOf t).getD r [] := by
    rw [List.getD_eq_getElem _ _ hrowlt]
    exact List.getElem_mem hrowlt
  rw [List.all_eq_true] at hall
  have hrlen := hall _ hrowmem
  rw [decide_eq_true_eq] at hrlen
  rw [hrlen] at hpxlt
  have hC : (COLS : Int) = 10 := by decide
  have hR : (ROWS : Int) = 20 := by decide
  constructor
  · omega
  constructor
  · omega
  · omega

/-- A valid move from a state of the finite superset stays inside it. -/
theorem ok_of_moveValid (g : Grid) (t : PieceType) (cur : St)
    (hcur : cur ∈ okList t) (n : Int × Int × Nat) (hn : n ∈ neighborActions)
    (hv : moveValidB g t cur n = true) : nextStOf t cur n ∈ okList t := by
  rw [mem_okList] at hcur ⊢
  obtain ⟨hx1, hx2, hy1, hy2, hrot⟩ := hcur
  have hlenpos := shapesOf_length_pos t
  fin_cases hn
  · -- left
    unfold moveValidB at hv
    rw [if_neg (by decide)] at hv
    have hb := bounds_of_canPlace g t cur.rot hrot (mkTempPiece t cur)
      (-1) 0 none rfl hv
    simp only [mkTempPiece] at hb
    unfold nextStOf
    dsimp only
    rw [Nat.mod_eq_of_lt (by omega)]
    exact ⟨by omega, by omega, by omega, by omega, hrot⟩
  · -- right
    unfold moveValidB at hv
    rw [if_neg (by decide)] at hv
    have hb := bounds_of_canPlace g t cur.rot hrot (mkTempPiece t cur)
      1 0 none rfl hv
    simp only [mkTempPiece] at hb
    unfold nextStOf
    dsimp only
    rw [Nat.mod_eq_of_lt (by omega)]
    exact ⟨by omega, by omega, by omega, by omega, hrot⟩
  · -- rotate
    unfold moveValidB at hv
    rw [if_pos (by decide)] at hv
    rw [Bool.and_eq_true] at hv
    have hb := bounds_of_canPlace g t ((cur.rot + 1) % (shapesOf t).length)
      (Nat.mod_lt _ (by omega)) (mkTempPiece t cur) 0 0
      (some ((shapesOf t).getD ((cur.rot + 1) % (shapesOf t).length) []))
      rfl hv.1
    simp only [mkTempPiece] at hb
    unfold nextStOf
    dsimp only
    exact ⟨by omega, by omega, by omega, by omega, Nat.mod_lt _ (by omega)⟩
  · -- down
    unfold moveValidB at hv
    rw [if_neg (by decide)] at hv
    have hb := bounds_of_canPlace g t cur.rot hrot (mkTempPiece t cur)
      0 1 none rfl hv
    simp only [mkTempPiece] at hb
    unfold nextStOf
    dsimp only
    rw [Nat.mod_eq_of_lt (by omega)]
    exact ⟨by omega, by omega, by omega, by omega, hrot⟩

/-- A path starting inside the visited set either stays within the processed
part or passes through a queued state. -/
theorem reach_split (g : Grid) (t : PieceType) (P q v : List St)
    (hv : ∀ s, s ∈ v ↔ s ∈ P ∨ s ∈ q)
    (hclosed : ∀ s ∈ P, ∀ s2, moveRel g t s s2 → s2 ∈ v) :
    ∀ u s', Relation.ReflTransGen (moveRel g t) u s' → u ∈ v →
      s' ∈ P ∨ ∃ w ∈ q, Relation.ReflTransGen (moveRel g t) w s' := by
  intro u s' hpath
  induction hpath using Relation.ReflTransGen.head_induction_on with
  | refl =>
    intro hu
    rcases (hv s').1 hu with h | h
    · exact Or.inl h
    · exact Or.inr ⟨s', h, Relation.ReflTransGen.refl⟩
  | head hstep htail ih =>
    intro hu
    rcases (hv _).1 hu with h | h
    · exact ih (hclosed _ h _ hstep)
    · exact Or.inr ⟨_, h, Relation.ReflTransGen.head hstep htail⟩

/-- The one-step unfolding of the BFS loop at a non-empty queue. -/
theorem bfsLoop_cons (g : Grid) (t : PieceType) (cfg : DiffConfig)
    (avoid : Option AvoidCtx) (fuel : Nat) (cur : St) (rest v : List St)
    (best : Option (ℚ × St)) (terms : List St) :
    bfsLoop g t cfg avoid (fuel + 1) (cur :: rest) v best terms
      = bfsLoop g t cfg avoid fuel
          (rest ++ (expandNeighbors g t avoid cur v).2)
          (expandNeighbors g t avoid cur v).1
          (if canPlacePiece g (mkTempPiece t cur) 0 1 none then best
           else
            (match best with
              | none => some (terminalScore g t cfg avoid cur, cur)
              | some b =>
                  if b.1 < terminalScore g t cfg avoid cur then
                    some (terminalScore g t cfg avoid cur, cur)
                  else best))
          (if canPlacePiece g (mkTempPiece t cur) 0 1 none then terms
           else terms ++ [cur]) := by
  by_cases h : canPlacePiece g (mkTempPiece t cur) 0 1 none = true
  · simp [bfsLoop, h]
  · simp only [Bool.not_eq_true] at h
    simp [bfsLoop, h]

/-- BFS completeness: with enough fuel relative to the unexplored state
budget, every terminal state covered by the processed part or reachable from
a queued state is eventually evaluated.  Avoidance is off, so no move is
suppressed. -/
theorem bfs_complete (g : Grid) (t : PieceType) (cfg : DiffConfig) :
    ∀ (fuel : Nat) (q v P terms : List St) (best : Option (ℚ × St)),
      q.length + ((okList t).length - v.length) ≤ fuel →
      (∀ s, s ∈ v ↔ s ∈ P ∨ s ∈ q) →
      (∀ s ∈ P, s ∉ q) →
      q.Nodup → v.Nodup →
      (∀ s ∈ v, s ∈ okList t) →
      (∀ s ∈ P, ∀ s2, moveRel g t s s2 → s2 ∈ v) →
      (∀ s ∈ P, isTerminal g t s → s ∈ terms) →
      ∀ s', isTerminal g t s' →
        (s' ∈ P ∨ ∃ w ∈ q, Relation.ReflTransGen (moveRel g t) w s') →
        s' ∈ (bfsLoop g t cfg none fuel q v best terms).2 := by
  intro fuel
  induction fuel with
  | zero =>
    intro q v P terms best hfuel hv hPq hnq hnv hok hcl hterm s' hterm' hcov
    have hq : q = [] := by
      cases q with
      | nil => rfl
      | cons a l => simp at hfuel
    subst hq
    rcases hcov with h | ⟨w, hw, _⟩
    · exact hterm s' h hterm'
    · exact absurd hw (List.not_mem_nil w)
  | succ fuel ih =>
    intro q v P terms best hfuel hv hPq hnq hnv hok hcl hterm s' hterm' hcov
    cases q with
    | nil =>
      rcases hcov with h | ⟨w, hw, _⟩
      · exact hterm s' h hterm'
      · exact absurd hw (List.not_mem_nil w)
    | cons cur rest =>
      have hcurv : cur ∈ v := (hv cur).2 (Or.inr (List.mem_cons_self cur rest))
      have hcurok : cur ∈ okList t := hok cur hcurv
      obtain ⟨adds, hadds⟩ :=
        foldl_expandStep_shape g t none cur neighborActions (v, [])
      have hexp1 : (expandNeighbors g t none cur v).1 = v ++ adds := by
        unfold expandNeighbors
        rw [hadds]
      have hexp2 : (expandNeighbors g t none cur v).2 = adds := by
        unfold expandNeighbors
        rw [hadds]
        simp
      have haddsrel : ∀ s ∈ adds, moveRel g t cur s ∧ s ∉ v := by
        intro s hs
        have := mem_snd_foldl_expandStep g t none cur neighborActions
          (fun n hn => hn) (v, []) s (by rw [hadds]; simpa using hs)
        rcases this with h | h
        · exact absurd h (List.not_mem_nil s)
        · exact h
      have hnv' : (v ++ adds).Nodup := by
        rw [← hexp1]
        unfold expandNeighbors
        exact nodup_fst_foldl_expandStep g t none cur neighborActions (v, []) hnv
      have hdisj : ∀ s ∈ v, s ∉ adds := by
        intro s hsv hsa
        rw [List.nodup_append] at hnv'
        exact hnv'.2.2 hsv hsa
      have haddsnodup : adds.Nodup := by
        rw [List.nodup_append] at hnv'
        exact hnv'.2.1
      have hok' : ∀ s ∈ v ++ adds, s ∈ okList t := by
        intro s hs
        rcases List.mem_append.1 hs with h | h
        · exact hok s h
        · obtain ⟨⟨n, hn, hvB, hseq⟩, _⟩ := haddsrel s h
          subst hseq
          exact ok_of_moveValid g t cur hcurok n hn hvB
      have hlenle : (v ++ adds).length ≤ (okList t).length :=
        length_le_of_nodup_subset _ _ hnv' hok'
      have hrestv : ∀ s ∈ rest, s ∈ v :=
        fun s hs => (hv s).2 (Or.inr (List.mem_cons_of_mem cur hs))
      have hcurnotrest : cur ∉ rest := (List.nodup_cons.1 hnq).1
      -- the new closure set
      have hv' : ∀ s, s ∈ v ++ adds ↔ s ∈ P ++ [cur] ∨ s ∈ rest ++ adds := by
        intro s
        rw [List.mem_append, List.mem_append, List.mem_append, hv s,
          List.mem_cons, List.mem_singleton]
        constructor
        · rintro ((h | (h | h)) | h)
          · exact Or.inl (Or.inl h)
          · exact Or.inl (Or.inr h)
          · exact Or.inr (Or.inl h)
          · exact Or.inr (Or.inr h)
        · rintro ((h | h) | (h | h))
          · exact Or.inl (Or.inl h)
          · exact Or.inl (Or.inr (Or.inl h))
          · exact Or.inl (Or.inr (Or.inr h))
          · exact Or.inr h
      have hcl' : ∀ s ∈ P ++ [cur], ∀ s2, moveRel g t s s2 → s2 ∈ v ++ adds := by
        intro s hs s2 hrel
        rcases List.mem_append.1 hs with h | h
        · exact List.mem_append_left adds (hcl s h s2 hrel)
        · rw [List.mem_singleton] at h
          subst h
          obtain ⟨n, hn, hvB, hseq⟩ := hrel
          subst hseq
          rw [← hexp1]
          exact moveValid_mem_expand g t s neighborActions (v, []) n hn hvB
      rw [bfsLoop_cons]
      rw [hexp1, hexp2]
      apply ih (rest ++ adds) (v ++ adds) (P ++ [cur]) _ _
      · -- fuel accounting: the measure decreases by exactly one
        have h1 : (rest ++ adds).length = rest.length + adds.length :=
          List.length_append rest adds
        have h2 : (v ++ adds).length = v.length + adds.length :=
          List.length_append v adds
        simp only [List.length_cons] at hfuel
        omega
      · exact hv'
      · -- processed states are not queued
        intro s hs
        rcases List.mem_append.1 hs with h | h
        · intro hmem
          rcases List.mem_append.1 hmem with hm | hm
          · exact hPq s h (List.mem_cons_of_mem cur hm)
          · exact hdisj s ((hv s).2 (Or.inl h)) hm
        · rw [List.mem_singleton] at h
          subst h
          intro hmem
          rcases List.mem_append.1 hmem with hm | hm
          · exact hcurnotrest hm
          · exact hdisj s hcurv hm
      · -- the new queue is duplicate-free
        rw [List.nodup_append]
        refine ⟨(List.nodup_cons.1 hnq).2, haddsnodup, ?_⟩
        intro s hs hsa
        exact hdisj s (hrestv s hs) hsa
      · exact hnv'
      · exact hok'
      · exact hcl'
      · -- terminals processed so far are recorded
        intro s hs hst
        rcases List.mem_append.1 hs with h | h
        · have := hterm s h hst
          by_cases hc : canPlacePiece g (mkTempPiece t cur) 0 1 none = true
          · rw [if_pos hc]
            exact this
          · rw [if_neg hc]
            exact List.mem_append_left _ this
        · rw [List.mem_singleton] at h
          subst h
          unfold isTerminal at hst
          rw [if_neg (by rw [hst]; exact Bool.false_ne_true)]
          exact List.mem_append_right _ (List.mem_singleton.2 rfl)
      · exact hterm'
      · -- coverage carries over to the new frontier
        rcases hcov with h | ⟨w, hw, hpath⟩
        · exact Or.inl (List.mem_append_left _ h)
        · rcases List.mem_cons.1 hw with hwc | hwr
          · have hcur' : w ∈ v ++ adds := by
              rw [hwc]
              exact List.mem_append_left adds hcurv
            exact reach_split g t (P ++ [cur]) (rest ++ adds) (v ++ adds)
              hv' hcl' w s' hpath hcur'
          · exact Or.inr ⟨w, List.mem_append_left adds hwr, hpath⟩

/-- On the empty grid an in-bounds placement is always accepted. -/
theorem canPlace_empty_of_bounds (t : PieceType) (r : Nat)
    (hr : r < (shapesOf t).length) (p : Piece) (ox oy : Int) (ts : Option Shape)
    (hts : ts.getD p.shape = (shapesOf t).getD r [])
    (hx0 : 0 ≤ p.x + ox) (hx1 : p.x + ox + shapeWidth t r ≤ 10)
    (hy1 : p.y + oy + ((shapesOf t).getD r []).length ≤ 20) :
    canPlacePiece emptyGrid p ox oy ts = true := by
  obtain ⟨hlen1, hlen4, hall, hw1, hw4, _⟩ := shape_facts t r hr
  rw [canPlacePiece_iff, hts]
  intro py row hrow px hpx
  have hpylt : py < ((shapesOf t).getD r []).length := by
    by_contra hge
    rw [List.getElem?_eq_none (by omega)] at hrow
    exact Option.noConfusion hrow
  have hrowmem : row ∈ (shapesOf t).getD r [] := by
    have := List.getElem?_eq_some.1 hrow
    obtain ⟨hlt, heq⟩ := this
    rw [← heq]
    exact List.getElem_mem hlt
  rw [List.all_eq_true] at hall
  have hrlen := hall _ hrowmem
  rw [decide_eq_true_eq] at hrlen
  have hpxlt : px < row.length := by
    by_contra hge
    rw [List.getElem?_eq_none (by omega)] at hpx
    exact Option.noConfusion hpx
  rw [hrlen] at hpxlt
  have hC : (COLS : Int) = 10 := by decide
  have hR : (ROWS : Int) = 20 := by decide
  refine ⟨by omega, by omega, by omega, ?_⟩
  intro _
  exact cellAt_emptyGrid _ _

/-- Rotation occlusion never blocks on the empty grid. -/
theorem checkRotationOcclusion_emptyGrid (cx cy : Int) (s1 s2 : Shape) :
    checkRotationOcclusion emptyGrid cx cy s1 s2 = true := by
  unfold checkRotationOcclusion
  rw [List.all_eq_true]
  intro y hy
  rw [List.all_eq_true]
  intro x hx
  rw [cellOccupied_emptyGrid]
  simp

/-- One step right on the empty grid. -/
theorem moveRel_right (t : PieceType) (x y : Int) (rot : Nat)
    (hrot : rot < (shapesOf t).length) (hx0 : 0 ≤ x + 1)
    (hx1 : x + 1 + shapeWidth t rot ≤ 10)
    (hy1 : y + ((shapesOf t).getD rot []).length ≤ 20) :
    moveRel emptyGrid t ⟨x, y, rot⟩ ⟨x + 1, y, rot⟩ := by
  refine ⟨(1, 0, 0), by decide, ?_, ?_⟩
  · unfold moveValidB
    rw [if_neg (by decide)]
    exact canPlace_empty_of_bounds t rot hrot _ 1 0 none rfl
      (by simpa using hx0) (by simpa using hx1) (by simpa using hy1)
  · unfold nextStOf
    simp [Nat.mod_eq_of_lt hrot]

/-- One step left on the empty grid. -/
theorem moveRel_left (t : PieceType) (x y : Int) (rot : Nat)
    (hrot : rot < (shapesOf t).length) (hx0 : 0 ≤ x - 1)
    (hx1 : x - 1 + shapeWidth t rot ≤ 10)
    (hy1 : y + ((shapesOf t).getD rot []).length ≤ 20) :
    moveRel emptyGrid t ⟨x, y, rot⟩ ⟨x - 1, y, rot⟩ := by
  refine ⟨(-1, 0, 0), by decide, ?_, ?_⟩
  · unfold moveValidB
    rw [if_neg (by decide)]
    refine canPlace_empty_of_bounds t rot hrot _ (-1) 0 none rfl ?_ ?_ ?_
    · simp only [mkTempPiece]
      omega
    · simp only [mkTempPiece]
      omega
    · simp only [mkTempPiece]
      omega
  · unfold nextStOf
    simp only [St.mk.injEq]
    refine ⟨by omega, by omega, by rw [Nat.add_zero, Nat.mod_eq_of_lt hrot]⟩

/-- One step down on the empty grid. -/
theorem moveRel_down (t : PieceType) (x y : Int) (rot : Nat)
    (hrot : rot < (shapesOf t).length) (hx0 : 0 ≤ x)
    (hx1 : x + shapeWidth t rot ≤ 10)
    (hy1 : y + 1 + ((shapesOf t).getD rot []).length ≤ 20) :
    moveRel emptyGrid t ⟨x, y, rot⟩ ⟨x, y + 1, rot⟩ := by
  refine ⟨(0, 1, 0), by decide, ?_, ?_⟩
  · unfold moveValidB
    rw [if_neg (by decide)]
    refine canPlace_empty_of_bounds t rot hrot _ 0 1 none rfl ?_ ?_ ?_
    · simp only [mkTempPiece]
      omega
    · simp only [mkTempPiece]
      omega
    · simp only [mkTempPiece]
      omega
  · unfold nextStOf
    simp [Nat.mod_eq_of_lt hrot]

/-- One rotation step on the empty grid. -/
theorem moveRel_rotate (t : PieceType) (x y : Int) (rot : Nat)
    (_hrot : rot < (shapesOf t).length) (hx0 : 0 ≤ x)
    (hx1 : x + shapeWidth t ((rot + 1) % (shapesOf t).length) ≤ 10)
    (hy1 : y + ((shapesOf t).getD ((rot + 1) % (shapesOf t).length) []).length
      ≤ 20) :
    moveRel emptyGrid t ⟨x, y, rot⟩ ⟨x, y, (rot + 1) % (shapesOf t).length⟩ := by
  refine ⟨(0, 0, 1), by decide, ?_, ?_⟩
  · unfold moveValidB
    rw [if_pos (by decide)]
    rw [Bool.and_eq_true]
    constructor
    · refine canPlace_empty_of_bounds t ((rot + 1) % (shapesOf t).length)
        (Nat.mod_lt _ (by have := shapesOf_length_pos t; omega)) _ 0 0 _ rfl
        ?_ ?_ ?_
      · simp only [mkTempPiece]
        omega
      · simp only [mkTempPiece]
        omega
      · simp only [mkTempPiece]
        omega
    · exact checkRotationOcclusion_emptyGrid _ _ _ _
  · unfold nextStOf
    simp

/-- Every rotation fits horizontally at the spawn column. -/
theorem spawn_width_ok : ∀ t : PieceType, ∀ rot < (shapesOf t).length,
    (COLS - shapeWidth t 0) / 2 + shapeWidth t rot ≤ 10 := by
  intro t
  cases t <;> decide

/-- From the spawn state every rotation index is reachable by rotating in
place. -/
theorem reach_rot_chain (t : PieceType) :
    ∀ r < (shapesOf t).length,
      Relation.ReflTransGen (moveRel emptyGrid t) (spawnStateOf t)
        ⟨(((COLS - shapeWidth t 0) / 2 : Nat) : Int), 0, r⟩ := by
  intro r
  induction r with
  | zero => intro _; exact Relation.ReflTransGen.refl
  | succ r ih =>
    intro hlt
    have hr : r < (shapesOf t).length := by omega
    have hmod : (r + 1) % (shapesOf t).length = r + 1 := Nat.mod_eq_of_lt hlt
    obtain ⟨_, hlen4, _, _, _, _⟩ := shape_facts t (r + 1) hlt
    refine Relation.ReflTransGen.tail (ih hr) ?_
    have hstep := moveRel_rotate t (((COLS - shapeWidth t 0) / 2 : Nat) : Int)
      0 r hr (by positivity) ?_ ?_
    · rw [hmod] at hstep
      exact hstep
    · rw [hmod]
      have := spawn_width_ok t (r + 1) hlt
      omega
    · rw [hmod]
      omega

/-- Rightward chains at the top row on the empty grid. -/
theorem reach_right_chain (t : PieceType) (rot : Nat)
    (hrot : rot < (shapesOf t).length) :
    ∀ (k : Nat) (a : Int), 0 ≤ a → a + k + shapeWidth t rot ≤ 10 →
      Relation.ReflTransGen (moveRel emptyGrid t) ⟨a, 0, rot⟩ ⟨a + k, 0, rot⟩ := by
  obtain ⟨_, hlen4, _, _, _, _⟩ := shape_facts t rot hrot
  intro k
  induction k with
  | zero =>
    intro a _ _
    have h0 : a + ((0 : Nat) : Int) = a := by simp
    rw [h0]
  | succ k ih =>
    intro a ha hbound
    have hcast : a + ((k + 1 : Nat) : Int) = (a + k) + 1 := by push_cast; ring
    rw [hcast]
    refine Relation.ReflTransGen.tail (ih a ha (by push_cast at hbound ⊢; omega)) ?_
    exact moveRel_right t (a + k) 0 rot hrot (by omega)
      (by push_cast at hbound ⊢; omega) (by omega)

/-- Leftward chains at the top row on the empty grid. -/
theorem reach_left_chain (t : PieceType) (rot : Nat)
    (hrot : rot < (shapesOf t).length) :
    ∀ (k : Nat) (a : Int), 0 ≤ a - k → a + shapeWidth t rot ≤ 10 →
      Relation.ReflTransGen (moveRel emptyGrid t) ⟨a, 0, rot⟩ ⟨a - k, 0, rot⟩ := by
  obtain ⟨_, hlen4, _, hw1, _, _⟩ := shape_facts t rot hrot
  intro k
  induction k with
  | zero =>
    intro a _ _
    have h0 : a - ((0 : Nat) : Int) = a := by simp
    rw [h0]
  | succ k ih =>
    intro a ha hbound
    have hcast : a - ((k + 1 : Nat) : Int) = (a - k) - 1 := by push_cast; ring
    rw [hcast]
    refine Relation.ReflTransGen.tail
      (ih a (by push_cast at ha ⊢; omega) hbound) ?_
    exact moveRel_left t (a - k) 0 rot hrot (by push_cast at ha ⊢; omega)
      (by push_cast at ha hbound ⊢; omega) (by omega)

/-- Any in-bounds column is laterally reachable from any other at the top
row. -/
theorem reach_lateral (t : PieceType) (rot : Nat)
    (hrot : rot < (shapesOf t).length) (a b : Int) (ha0 : 0 ≤ a)
    (ha1 : a + shapeWidth t rot ≤ 10) (hb0 : 0 ≤ b)
    (hb1 : b + shapeWidth t rot ≤ 10) :
    Relation.ReflTransGen (moveRel emptyGrid t) ⟨a, 0, rot⟩ ⟨b, 0, rot⟩ := by
  rcases le_or_lt a b with hab | hab
  · have hk : a + (((b - a).toNat : Nat) : Int) = b := by omega
    have hchain := reach_right_chain t rot hrot (b - a).toNat a ha0 (by omega)
    rw [hk] at hchain
    exact hchain
  · have hk : a - (((a - b).toNat : Nat) : Int) = b := by omega
    have hchain := reach_left_chain t rot hrot (a - b).toNat a (by omega) ha1
    rw [hk] at hchain
    exact hchain

/-- Downward chains on the empty grid. -/
theorem reach_down_chain (t : PieceType) (rot : Nat)
    (hrot : rot < (shapesOf t).length) (x : Int) (hx0 : 0 ≤ x)
    (hx1 : x + shapeWidth t rot ≤ 10) :
    ∀ k : Nat, (k : Int) + ((shapesOf t).getD rot []).length ≤ 20 →
      Relation.ReflTransGen (moveRel emptyGrid t) ⟨x, 0, rot⟩ ⟨x, k, rot⟩ := by
  intro k
  induction k with
  | zero => intro _; exact Relation.ReflTransGen.refl
  | succ k ih =>
    intro hbound
    have hcast : ((k + 1 : Nat) : Int) = (k : Int) + 1 := by push_cast; ring
    rw [hcast]
    refine Relation.ReflTransGen.tail (ih (by push_cast at hbound ⊢; omega)) ?_
    exact moveRel_down t x k rot hrot hx0 hx1 (by push_cast at hbound ⊢; omega)

/-- The state resting on the floor cannot move down: it is terminal. -/
theorem terminal_bottom (t : PieceType) (rot : Nat)
    (hrot : rot < (shapesOf t).length) (x : Int) :
    isTerminal emptyGrid t
      ⟨x, (((20 - ((shapesOf t).getD rot []).length : Nat) : Nat) : Int), rot⟩ := by
  obtain ⟨hlen1, hlen4, hall, _, _, hany⟩ := shape_facts t rot hrot
  unfold isTerminal
  rcases Bool.eq_false_or_eq_true
      (canPlacePiece emptyGrid
        (mkTempPiece t
          ⟨x, (((20 - ((shapesOf t).getD rot []).length : Nat) : Nat) : Int), rot⟩)
        0 1 none) with h | h
  swap
  · exact h
  · exfalso
    rw [canPlacePiece_iff] at h
    have hrowlt : ((shapesOf t).getD rot []).length - 1
        < ((shapesOf t).getD rot []).length := by omega
    have hrow : ((shapesOf t).getD rot [])[((shapesOf t).getD rot []).length - 1]?
        = some (((shapesOf t).getD rot []).getD
            (((shapesOf t).getD rot []).length - 1) []) := by
      rw [List.getD_eq_getElem _ _ hrowlt]
      exact List.getElem?_eq_getElem hrowlt
    rw [List.any_eq_true] at hany
    obtain ⟨c, hc, hcid⟩ := hany
    have hctrue : c = true := by
      cases c
      · exact absurd hcid (by simp)
      · rfl
    subst hctrue
    obtain ⟨px, hpx⟩ := List.mem_iff_getElem?.1 hc
    have hres := h _ _ hrow px hpx
    obtain ⟨_, _, hy, _⟩ := hres
    simp only [mkTempPiece] at hy
    have hR : (ROWS : Int) = 20 := by decide
    omega

/-- The spawn state lies in the finite state superset. -/
theorem spawn_mem_okList (t : PieceType) : spawnStateOf t ∈ okList t := by
  rw [mem_okList]
  unfold spawnStateOf
  dsimp only
  obtain ⟨_, _, _, hw1, hw4, _⟩ := shape_facts t 0 (shapesOf_length_pos t)
  have hC : COLS = 10 := rfl
  refine ⟨by omega, by omega, by omega, by omega, shapesOf_length_pos t⟩

/-- Any terminal state reachable from the spawn state on the empty grid has
its (column, rotation) pair evaluated within the iteration budget. -/
theorem bfs_complete_spawn_empty (t : PieceType) (s : St)
    (hreach : Relation.ReflTransGen (moveRel emptyGrid t) (spawnStateOf t) s)
    (hterm : isTerminal emptyGrid t s) :
    ((s.x, s.rot) : Int × Nat) ∈ evaluatedCombos t := by
  have hN := okList_length_le t
  have hmem := bfs_complete emptyGrid t normalConfig AI_MAX_BFS_ITERATIONS
    [spawnStateOf t] [spawnStateOf t] [] [] none
    (by
      have hI : AI_MAX_BFS_ITERATIONS = 4000 := rfl
      simp only [List.length_singleton]
      omega)
    (by intro s2; simp)
    (by intro s2 hs; exact absurd hs (List.not_mem_nil s2))
    (List.nodup_singleton _) (List.nodup_singleton _)
    (by
      intro s2 hs
      rw [List.mem_singleton] at hs
      subst hs
      exact spawn_mem_okList t)
    (by intro s2 hs; exact absurd hs (List.not_mem_nil s2))
    (by intro s2 hs; exact absurd hs (List.not_mem_nil s2))
    s hterm
    (Or.inr ⟨spawnStateOf t, List.mem_singleton.2 rfl, hreach⟩)
  unfold evaluatedCombos
  rw [List.mem_map]
  exact ⟨s, hmem, rfl⟩

/-- Completeness of the spawn search on the empty grid: every in-bounds
(column, rotation) pair has its floor-resting state evaluated within the
iteration budget. -/
theorem evaluated_complete (t : PieceType) (rot : Nat)
    (hrot : rot < (shapesOf t).length) (x : Int) (hx0 : 0 ≤ x)
    (hx1 : x + shapeWidth t rot ≤ 10) :
    ((x, rot) : Int × Nat) ∈ evaluatedCombos t := by
  obtain ⟨hlen1, hlen4, _, hw1, hw4, _⟩ := shape_facts t rot hrot
  obtain ⟨_, _, _, hw1z, hw4z, _⟩ := shape_facts t 0 (shapesOf_length_pos t)
  have hC : COLS = 10 := rfl
  -- the floor-resting state for this combination
  have hterm := terminal_bottom t rot hrot x
  -- reach it: rotate at spawn, move laterally, then drop
  have h1 := reach_rot_chain t rot hrot
  have h2 := reach_lateral t rot hrot (((COLS - shapeWidth t 0) / 2 : Nat) : Int) x
    (by positivity) (by have := spawn_width_ok t rot hrot; omega)
    hx0 hx1
  have h3 := reach_down_chain t rot hrot x hx0 hx1
    (20 - ((shapesOf t).getD rot []).length) (by omega)
  have hreach := Relation.ReflTransGen.trans h1 (Relation.ReflTransGen.trans h2 h3)
  exact bfs_complete_spawn_empty t _ hreach hterm

/-- The avoidance context built by calculateTarget does not depend on the
iteration budget: the recorded target score is the BFS best under one fixed
context for every budget. -/
theorem calculateTargetWith_targetScore_shape (g : Grid) (piece : Piece)
    (cfg : DiffConfig) (ap pt : Bool) (pl : Option PlayerPos) (ai : AiState) :
    ∃ av : Option AvoidCtx, ∀ m : Nat,
      (calculateTargetWith m g piece cfg ap pt pl ai).targetScore
        = (bfsLoop g piece.type cfg av m [⟨piece.x, piece.y, piece.rotation⟩]
            [⟨piece.x, piece.y, piece.rotation⟩] none []).1.map Prod.fst := by
  refine ⟨_, fun m => rfl⟩

/-- A freshly spawned O piece (rotation 0, centered at column 4). -/
def oSpawnPiece : Piece :=
  { type := PieceType.O, rotation := 0, shape := getShape PieceType.O 0,
    color := colorOf PieceType.O, x := 4, y := 0, fallStepCount := 0 }

/-- C4: searched from the spawn state over the empty grid, the bounded BFS of
calculateTarget evaluates a terminal resting state for every reachable
(column, rotation) combination within the iteration budget
AI_MAX_BFS_ITERATIONS = 4000; and on every grid a larger iteration budget
never decreases the best score recorded by calculateTarget. -/
theorem bfs_spawn_complete_and_budget_monotone :
    AI_MAX_BFS_ITERATIONS = 4000
    ∧ (∀ (t : PieceType) (s : St),
        Relation.ReflTransGen (moveRel emptyGrid t) (spawnStateOf t) s →
        isTerminal emptyGrid t s →
        ((s.x, s.rot) : Int × Nat) ∈ evaluatedCombos t)
    ∧ (∀ (m₁ m₂ : Nat), m₁ ≤ m₂ →
        ∀ (g : Grid) (piece : Piece) (cfg : DiffConfig)
          (ap pt : Bool) (pl : Option PlayerPos) (ai : AiState),
          scoreLe
            (calculateTargetWith m₁ g piece cfg ap pt pl ai).targetScore
            (calculateTargetWith m₂ g piece cfg ap pt pl ai).targetScore) := by
  refine ⟨rfl, ?_, ?_⟩
  · intro t s hreach hterm
    exact bfs_complete_spawn_empty t s hreach hterm
  · intro m₁ m₂ hle g piece cfg ap pt pl ai
    obtain ⟨av, hav⟩ := calculateTargetWith_targetScore_shape g piece cfg ap pt pl ai
    intro p hp
    rw [hav m₁] at hp
    rw [hav m₂]
    obtain ⟨pr, hpr, hfst⟩ := Option.map_eq_some'.1 hp
    obtain ⟨qr, hqr, hle'⟩ :=
      bfsLoop_mono g piece.type cfg av m₁ m₂ hle _ _ none [] pr hpr
    refine ⟨qr.1, by rw [hqr]; rfl, ?_⟩
    rw [← hfst]
    exact hle'

/-- Witness for C4: the O piece's floor-resting spawn-column state (column 4,
rotation 0, row 18) is reachable and terminal, so its combination is
evaluated; and budgets 1 ≤ 2 give monotone recorded scores on the empty
grid. -/
theorem bfs_spawn_complete_and_budget_monotone_witness :
    (((4 : Int), 0) ∈ evaluatedCombos PieceType.O)
    ∧ scoreLe
        (calculateTargetWith 1 emptyGrid oSpawnPiece normalConfig false false
          none aiReset).targetScore
        (calculateTargetWith 2 emptyGrid oSpawnPiece normalConfig false false
          none aiReset).targetScore := by
  constructor
  · refine bfs_spawn_complete_and_budget_monotone.2.1 PieceType.O ⟨4, 18, 0⟩ ?_ ?_
    · have h := reach_down_chain PieceType.O 0 (by decide) 4 (by decide)
        (by decide) 18 (by decide)
      exact h
    · unfold isTerminal
      decide
  · exact bfs_spawn_complete_and_budget_monotone.2.2 1 2 (by decide) emptyGrid
      oSpawnPiece normalConfig false false none aiReset

/-- A sample avoidance context for concrete evaluation. -/
def wAvoidCtx : AvoidCtx :=
  { dzLeft := 2, dzRight := 6, dzReward := -50, playerYGrid := 10 }

/-- C5: when avoidance is active, calculateTarget searches under a context
whose danger-zone reward is the base reward decayed geometrically by the
retarget count and then panic-clamped toward zero by the board max height
(min 0 (r - maxHeight * (r / 20)) for decayed r — decay first, clamp
second); a terminal placement overlapping the danger zone receives exactly
that reward on top of its heuristic score; and for decay rates in [0, 1]
the decayed reward's magnitude is non-increasing in the retarget count. -/
theorem dangerZone_decay_then_panic_clamp :
    (∀ (m : Nat) (g : Grid) (piece : Piece) (cfg : DiffConfig) (pt : Bool)
        (pl : PlayerPos) (ai : AiState),
        (calculateTargetWith m g piece cfg true pt (some pl) ai).targetScore
          = (bfsLoop g piece.type cfg
              (some { dzLeft := (getPlayerDangerZone pl cfg.dangerZoneMargin).1,
                      dzRight := (getPlayerDangerZone pl cfg.dangerZoneMargin).2,
                      dzReward := min 0 (decayedDangerZoneReward cfg ai.retargetCount
                        - (currentMaxHeightOf g : ℚ)
                          * (decayedDangerZoneReward cfg ai.retargetCount / 20)),
                      playerYGrid := ⌊pl.y / CELL_SIZE⌋ })
              m [⟨piece.x, piece.y, piece.rotation⟩]
              [⟨piece.x, piece.y, piece.rotation⟩] none []).1.map Prod.fst)
    ∧ (∀ (cfg : DiffConfig) (k : Nat),
        decayedDangerZoneReward cfg k
          = cfg.dangerZoneReward * cfg.dangerZoneDecay ^ k)
    ∧ (∀ (g : Grid) (t : PieceType) (cfg : DiffConfig) (a : AvoidCtx) (cur : St),
        (cur.x < a.dzRight ∧ a.dzLeft < cur.x
            + (((((shapesOf t).getD cur.rot []).getD 0 []).length : Nat) : Int)) →
        terminalScore g t cfg (some a) cur
          = (evaluatePosition g (mkTempPiece t cur)
              ((shapesOf t).getD cur.rot []) cfg : ℚ) + a.dzReward)
    ∧ (∀ cfg : DiffConfig, 0 ≤ cfg.dangerZoneDecay → cfg.dangerZoneDecay ≤ 1 →
        ∀ k : Nat,
          |decayedDangerZoneReward cfg (k + 1)|
            ≤ |decayedDangerZoneReward cfg k|) := by
  refine ⟨fun m g piece cfg pt pl ai => rfl, fun cfg k => rfl, ?_, ?_⟩
  · intro g t cfg a cur hcond
    have hshape : terminalScore g t cfg (some a) cur
        = (evaluatePosition g (mkTempPiece t cur)
            ((shapesOf t).getD cur.rot []) cfg : ℚ)
          + (if cur.x < a.dzRight ∧ a.dzLeft < cur.x
              + (((((shapesOf t).getD cur.rot []).getD 0 []).length : Nat) : Int)
            then a.dzReward else 0) := rfl
    rw [hshape, if_pos hcond]
  · intro cfg h0 h1 k
    have hstep : decayedDangerZoneReward cfg (k + 1)
        = decayedDangerZoneReward cfg k * cfg.dangerZoneDecay := by
      unfold decayedDangerZoneReward
      rw [pow_succ]
      ring
    rw [hstep, abs_mul, abs_of_nonneg h0]
    calc |decayedDangerZoneReward cfg k| * cfg.dangerZoneDecay
        ≤ |decayedDangerZoneReward cfg k| * 1 :=
          mul_le_mul_of_nonneg_left h1 (abs_nonneg _)
      _ = |decayedDangerZoneReward cfg k| := mul_one _

/-- Witness for C5: a concrete overlapping terminal placement receives the
context's reward, and one retarget step under the normal preset does not
grow the decayed reward's magnitude. -/
theorem dangerZone_decay_then_panic_clamp_witness :
    (terminalScore emptyGrid PieceType.O normalConfig (some wAvoidCtx) ⟨4, 18, 0⟩
      = (evaluatePosition emptyGrid (mkTempPiece PieceType.O ⟨4, 18, 0⟩)
          ((shapesOf PieceType.O).getD 0 []) normalConfig : ℚ)
        + wAvoidCtx.dzReward)
    ∧ |decayedDangerZoneReward normalConfig (0 + 1)|
        ≤ |decayedDangerZoneReward normalConfig 0| := by
  constructor
  · exact dangerZone_decay_then_panic_clamp.2.2.1 emptyGrid PieceType.O
      normalConfig wAvoidCtx ⟨4, 18, 0⟩ (by decide)
  · exact dangerZone_decay_then_panic_clamp.2.2.2 normalConfig (by norm_num
      [normalConfig]) (by norm_num [normalConfig]) 0

/-- A top row blocked at columns 3 and 6, boxing an O piece in at
columns 4–5. -/
def blockRow : Row :=
  ((List.replicate COLS (none : Cell)).set 3 (some 0)).set 6 (some 0)

/-- A grid boxing the O piece into a single reachable state: columns 3 and 6
are blocked in the top two rows and every lower row is fully occupied, so
the spawn state is the unique (and terminal) state of the search. -/
def wGrid : Grid :=
  [blockRow, blockRow] ++ List.replicate 18 (List.replicate COLS (some 0))

/-- An AI state that has already recorded a (stale) target fingerprint. -/
def wAi : AiState :=
  { aiReset with lastTargetKey := some ⟨0, 99, 0⟩ }

/-- The retarget counter's exact behaviour in calculateTarget: reselecting
the recorded fingerprint never increments; a recomputation that is not
player-triggered never increments even when the target changes; a change
from a null previous fingerprint never increments; and a player-triggered
recomputation changing a non-null fingerprint increments by one. -/
theorem retarget_increment_conditions (m : Nat) (g : Grid) (piece : Piece)
    (cfg : DiffConfig) (ap pt : Bool) (pl : Option PlayerPos) (ai : AiState) :
    ((calculateTargetWith m g piece cfg ap pt pl ai).lastTargetKey
        = ai.lastTargetKey →
      (calculateTargetWith m g piece cfg ap pt pl ai).retargetCount
        = ai.retargetCount)
    ∧ (pt = false →
      (calculateTargetWith m g piece cfg ap pt pl ai).retargetCount
        = ai.retargetCount)
    ∧ (ai.lastTargetKey = none →
      (calculateTargetWith m g piece cfg ap pt pl ai).retargetCount
        = ai.retargetCount)
    ∧ (pt = true → ai.lastTargetKey ≠ none →
      (calculateTargetWith m g piece cfg ap pt pl ai).lastTargetKey
        ≠ ai.lastTargetKey →
      (calculateTargetWith m g piece cfg ap pt pl ai).retargetCount
        = ai.retargetCount + 1) := by
  obtain ⟨key, hkey, hcount⟩ :
      ∃ key, (calculateTargetWith m g piece cfg ap pt pl ai).lastTargetKey = key
        ∧ (calculateTargetWith m g piece cfg ap pt pl ai).retargetCount
          = (if pt ∧ ai.lastTargetKey ≠ none ∧ key ≠ ai.lastTargetKey
            then ai.retargetCount + 1 else ai.retargetCount) :=
    ⟨_, rfl, rfl⟩
  refine ⟨?_, ?_, ?_, ?_⟩
  · intro hsame
    rw [hkey] at hsame
    rw [hcount, if_neg]
    intro hc
    exact hc.2.2 hsame
  · intro hpt
    rw [hcount, if_neg]
    intro hc
    rw [hpt] at hc
    exact Bool.false_ne_true hc.1
  · intro hnone
    rw [hcount, if_neg]
    intro hc
    exact hc.2.1 hnone
  · intro hpt hlast hchange
    rw [hkey] at hchange
    rw [hcount, if_pos ⟨by rw [hpt], hlast, hchange⟩]

/-- Witness for C6's corrected behaviour: a non-player-triggered
recomputation leaves the counter unchanged. -/
theorem retarget_increment_conditions_witness :
    (calculateTargetWith AI_MAX_BFS_ITERATIONS wGrid oSpawnPiece normalConfig
        false false none wAi).retargetCount = wAi.retargetCount :=
  (retarget_increment_conditions AI_MAX_BFS_ITERATIONS wGrid oSpawnPiece
    normalConfig false false none wAi).2.1 rfl

/-- Counterexample to C6 as stated: on the near-full grid the recomputation
(not player-triggered: e.g. a blocked-path recalculation) selects a terminal
state different from the recorded fingerprint, yet the retarget counter does
not increment. -/
theorem retarget_change_without_increment_counterexample :
    (calculateTargetWith AI_MAX_BFS_ITERATIONS wGrid oSpawnPiece normalConfig
        false false none wAi).lastTargetKey ≠ wAi.lastTargetKey
    ∧ (calculateTargetWith AI_MAX_BFS_ITERATIONS wGrid oSpawnPiece normalConfig
        false false none wAi).lastTargetKey ≠ none
    ∧ (calculateTargetWith AI_MAX_BFS_ITERATIONS wGrid oSpawnPiece normalConfig
        false false none wAi).retargetCount = wAi.retargetCount := by
  decide

/-- The game-over reason strings of engine.js, as an enumeration. -/
inductive GOReason
  | fieldFilled
  | squished
  | clearedWithLine
deriving DecidableEq

/-- this.status values. -/
inductive GStatus
  | playing
  | gameover
  | win
deriving DecidableEq

/-- The player object of engine.js (pixel coordinates and velocities). -/
structure EPlayer where
  x : ℚ
  y : ℚ
  vx : ℚ
  vy : ℚ
  onGround : Bool
  facingRight : Bool
  dead : Bool
deriving DecidableEq

/-- this.timers. -/
structure Timers where
  pieceFall : ℚ
  aiMove : ℚ
  spawn : ℚ
  sabotage : ℚ
  sabotageCooldown : ℚ
  playerLineClear : ℚ
deriving DecidableEq

/-- this.stats. -/
structure Stats where
  time : ℚ
  linesCleared : Nat
  pieceCount : Nat
  recentLines : List ℚ
deriving DecidableEq

/-- this.settings (the difficulty name as a numeric tag, plus the derived
difficulty configuration). -/
structure Settings where
  difficulty : Nat
  speed : ℚ
  diffConfig : DiffConfig
deriving DecidableEq

/-- DIFFICULTY_SETTINGS[difficulty] for the numeric difficulty tags
(0 easy, 1 normal, 2 hard). -/
def diffConfigOf (d : Nat) : DiffConfig :=
  if d = 0 then easyConfig else if d = 2 then hardConfig else normalConfig

/-- The engine's mutable state (the parts dumped and restored by the debug
snapshot, plus status, godMode and the last reported game-over reason; the
cosmetic particle/input state is omitted). -/
structure EngineState where
  grid : Grid
  player : Option EPlayer
  currentPiece : Option Piece
  ai : AiState
  stats : Stats
  timers : Timers
  settings : Settings
  status : GStatus
  waitingForPiece : Bool
  godMode : Bool
  lastGameOverReason : Option GOReason
deriving DecidableEq

/-- gameOver(reason) from engine.js: a no-op unless playing; under godMode a
field-filled reason still ends the game while any other reason only
teleports the player to safety; otherwise the game ends and the player is
marked dead.  onGameOver calls are observed in lastGameOverReason. -/
def gameOver (reason : GOReason) (s : EngineState) : EngineState :=
  if s.status = GStatus.playing then
    if s.godMode then
      if reason = GOReason.fieldFilled then
        { s with status := GStatus.gameover, lastGameOverReason := some reason }
      else
        match s.player with
        | some pl => { s with player := some { pl with y := 0, vy := 0 } }
        | none => s
    else
      { s with
        status := GStatus.gameover,
        player := s.player.map (fun pl => { pl with dead := true }),
        lastGameOverReason := some reason }
  else s

/-- The piece record spawnPiece builds for a drawn type: rotation 0,
centered horizontally at the top. -/
def mkSpawnPiece (t : PieceType) : Piece :=
  { type := t, rotation := 0, shape := (shapesOf t).getD 0 [],
    color := colorOf t, x := (((COLS - shapeWidth t 0) / 2 : Nat) : Int),
    y := 0, fallStepCount := 0 }

/-- spawnPiece from engine.js for a drawn piece type: install the new piece,
reset the AI, and either game over with the field-filled reason when the
spawn position is blocked, or compute the AI target with player avoidance
on.  (The sabotage follow-up acts outside the modelled state.) -/
def spawnPiece (t : PieceType) (s : EngineState) : EngineState :=
  let piece := mkSpawnPiece t
  let s1 := { s with currentPiece := some piece, ai := aiReset }
  if canPlacePiece s1.grid piece 0 0 none then
    { s1 with
      ai := calculateTarget s1.grid piece s1.settings.diffConfig true
        false (s1.player.map (fun pl => ⟨pl.x, pl.y⟩)) aiReset }
  else
    gameOver GOReason.fieldFilled s1

/-- C7: a blocked spawn position forces an immediate transition to the
game-over state with the field-filled cause regardless of godMode; under
godMode every other game-over reason is suppressed — the status stays
playing, no game-over is reported, and the player is merely teleported to
the top. -/
theorem spawn_blocked_unconditional_gameover :
    (∀ (t : PieceType) (s : EngineState),
        s.status = GStatus.playing →
        canPlacePiece s.grid (mkSpawnPiece t) 0 0 none = false →
        (spawnPiece t s).status = GStatus.gameover
          ∧ (spawnPiece t s).lastGameOverReason = some GOReason.fieldFilled)
    ∧ (∀ (s : EngineState) (r : GOReason),
        s.status = GStatus.playing → s.godMode = true →
        r ≠ GOReason.fieldFilled →
        (gameOver r s).status = GStatus.playing
          ∧ (gameOver r s).lastGameOverReason = s.lastGameOverReason
          ∧ (gameOver r s).player
              = s.player.map (fun pl => { pl with y := 0, vy := 0 })) := by
  constructor
  · intro t s hst hblocked
    have h1 : spawnPiece t s = gameOver GOReason.fieldFilled
        { s with currentPiece := some (mkSpawnPiece t), ai := aiReset } := by
      simp [spawnPiece, hblocked]
    rw [h1]
    unfold gameOver
    by_cases hg : s.godMode
    · simp [hst, hg]
    · simp [hst, hg]
  · intro s r hst hg hr
    unfold gameOver
    rw [if_pos hst, if_pos hg, if_neg hr]
    cases hp : s.player with
    | none => simp [hst, hp]
    | some pl => simp [hst, hp]

/-- An engine state with a completely full grid, godMode on and a live
player: spawning any piece is blocked. -/
def wFullEngine : EngineState :=
  { grid := List.replicate ROWS (List.replicate COLS (some 0)),
    player := some ⟨100, 200, 0, 0, false, true, false⟩,
    currentPiece := none, ai := aiReset,
    stats := ⟨0, 0, 0, []⟩, timers := ⟨0, 0, 0, 0, 0, 0⟩,
    settings := ⟨1, 1, normalConfig⟩, status := GStatus.playing,
    waitingForPiece := false, godMode := true, lastGameOverReason := none }

/-- Witness for C7: on the full grid with godMode on, spawning an O piece
ends the game with the field-filled cause, while a squish reason leaves the
game running and teleports the player. -/
theorem spawn_blocked_unconditional_gameover_witness :
    ((spawnPiece PieceType.O wFullEngine).status = GStatus.gameover
      ∧ (spawnPiece PieceType.O wFullEngine).lastGameOverReason
          = some GOReason.fieldFilled)
    ∧ ((gameOver GOReason.squished wFullEngine).status = GStatus.playing
      ∧ (gameOver GOReason.squished wFullEngine).lastGameOverReason
          = wFullEngine.lastGameOverReason
      ∧ (gameOver GOReason.squished wFullEngine).player
          = wFullEngine.player.map (fun pl => { pl with y := 0, vy := 0 })) := by
  constructor
  · exact spawn_blocked_unconditional_gameover.1 PieceType.O wFullEngine rfl
      (by decide)
  · exact spawn_blocked_unconditional_gameover.2 wFullEngine GOReason.squished
      rfl rfl (by decide)

/-- The snapshot's player record (dumpState stores no dead flag). -/
structure SnapPlayer where
  x : ℚ
  y : ℚ
  vx : ℚ
  vy : ℚ
  onGround : Bool
  facingRight : Bool
deriving DecidableEq

/-- The snapshot's current-piece record. -/
structure SnapPiece where
  type : PieceType
  x : Int
  y : Int
  rotation : Nat
  fallStepCount : Nat
deriving DecidableEq

/-- The snapshot's AI record. -/
structure SnapAi where
  target : Option St
  targetScore : Option ℚ
  retargetCount : Nat
  lastPlayerGridX : Option Int
deriving DecidableEq

/-- The settings object stored by dumpState (difficulty name as a numeric
tag, plus speed; the derived diffConfig is not dumped). -/
structure SnapSettings where
  difficulty : Nat
  speed : ℚ
deriving DecidableEq

/-- A raw snapshot as it reaches loadState from JSON.parse: every top-level
field may be absent.  A present field carries well-typed content; absence of
a top-level field is what the version check does not detect. -/
structure Snapshot where
  version : Option Nat
  settings : Option SnapSettings
  grid : Option Grid
  player : Option SnapPlayer
  currentPiece : Option SnapPiece
  ai : Option SnapAi
  stats : Option Stats
  timers : Option Timers
deriving DecidableEq

/-- The observable outcomes of loadState: a normal return, a TypeError
thrown part-way (carrying the engine state as already mutated at the throw
site), or the missing-timers path that returns true after assigning the
spread of undefined — an empty timers object the typed state cannot hold
(the carried state keeps its previous timers field). -/
inductive LoadResult
  | ok (returned : Bool) (s : EngineState)
  | thrown (s : EngineState)
  | okEmptyTimers (s : EngineState)
deriving DecidableEq

/-- loadState from engine.js: a missing snapshot or a version other than 1
is rejected before anything is touched (return false).  Version-1 input is
then applied field by field with no further validation: reading
state.settings.difficulty throws before any mutation when settings is
absent; state.grid.map throws after the settings were already applied when
grid is absent; a missing player or currentPiece is skipped (old value
kept); the AI is reset and then restored when state.ai is present;
state.stats.recentLines throws after everything so far was applied when
stats is absent; a missing timers object still returns true with
this.timers set to the empty spread of undefined. -/
def loadState (s : EngineState) (snap : Option Snapshot) : LoadResult :=
  match snap with
  | none => LoadResult.ok false s
  | some d =>
      if d.version ≠ some 1 then LoadResult.ok false s
      else
        match d.settings with
        | none => LoadResult.thrown s
        | some st =>
            let s1 :=
              { s with
                settings :=
                  { difficulty := st.difficulty,
                    speed := st.speed,
                    diffConfig := diffConfigOf st.difficulty } }
            match d.grid with
            | none => LoadResult.thrown s1
            | some gr =>
                let s2 := { s1 with grid := gr }
                let s3 :=
                  match d.player with
                  | some p =>
                      { s2 with
                        player :=
                          some
                            { x := p.x, y := p.y, vx := p.vx, vy := p.vy,
                              onGround := p.onGround,
                              facingRight := p.facingRight, dead := false } }
                  | none => s2
                let s4 :=
                  match d.currentPiece with
                  | some p =>
                      { s3 with
                        currentPiece :=
                          some
                            { type := p.type, x := p.x, y := p.y,
                              rotation := p.rotation,
                              shape := getShape p.type p.rotation,
                              color := colorOf p.type,
                              fallStepCount := p.fallStepCount } }
                  | none => s3
                let s5 :=
                  match d.ai with
                  | some a =>
                      { s4 with
                        ai :=
                          { aiReset with
                            target := a.target,
                            targetScore := a.targetScore,
                            retargetCount := a.retargetCount,
                            lastPlayerGridX := a.lastPlayerGridX } }
                  | none => { s4 with ai := aiReset }
                match d.stats with
                | none => LoadResult.thrown s5
                | some stt =>
                    let s6 := { s5 with stats := stt }
                    match d.timers with
                    | none =>
                        LoadResult.okEmptyTimers
                          { s6 with status := GStatus.playing,
                                    waitingForPiece := false }
                    | some tm =>
                        LoadResult.ok true
                          { s6 with timers := tm,
                                    status := GStatus.playing,
                                    waitingForPiece := false }

/-- C8 (amended): a missing snapshot, or one whose version field is absent
or differs from 1, is rejected outright — loadState returns false with the
state untouched.  But the version check is the only validation: a version-1
snapshot with settings but no grid has its settings applied and then throws
from the grid restore, so a malformed version-1 snapshot can be partially
applied. -/
theorem loadState_version_guard_only :
    (∀ (s : EngineState) (snap : Option Snapshot),
        (∀ d, snap = some d → d.version ≠ some 1) →
        loadState s snap = LoadResult.ok false s)
    ∧ (∀ (s : EngineState) (d : Snapshot) (st : SnapSettings),
        d.version = some 1 → d.settings = some st → d.grid = none →
        loadState s (some d)
          = LoadResult.thrown
              { s with
                settings :=
                  { difficulty := st.difficulty,
                    speed := st.speed,
                    diffConfig := diffConfigOf st.difficulty } }) := by
  constructor
  · intro s snap h
    cases snap with
    | none => rfl
    | some d =>
        have hv : d.version ≠ some 1 := h d rfl
        simp only [loadState]
        rw [if_pos hv]
  · intro s d st hv hset hgrid
    simp only [loadState, hset, hgrid]
    rw [if_neg (by rw [hv]; exact fun h2 => h2 rfl)]

/-- A version-2 snapshot (otherwise complete). -/
def wSnapshot : Snapshot :=
  { version := some 2, settings := some ⟨1, 1⟩, grid := some emptyGrid,
    player := none, currentPiece := none,
    ai := some ⟨none, none, 0, none⟩, stats := some ⟨0, 0, 0, []⟩,
    timers := some ⟨0, 0, 0, 0, 0, 0⟩ }

/-- A version-1 snapshot carrying settings but no grid: malformed yet
accepted by the version check. -/
def wBadSnapshot : Snapshot :=
  { version := some 1, settings := some ⟨2, 1⟩, grid := none,
    player := none, currentPiece := none, ai := none, stats := none,
    timers := none }

/-- A concrete engine state for the snapshot witnesses. -/
def wEngineState : EngineState :=
  { grid := emptyGrid, player := none, currentPiece := none, ai := aiReset,
    stats := ⟨0, 0, 0, []⟩, timers := ⟨0, 0, 0, 0, 0, 0⟩,
    settings := ⟨1, 1, normalConfig⟩, status := GStatus.playing,
    waitingForPiece := false, godMode := false, lastGameOverReason := none }

/-- Counterexample to C8 as stated: the malformed version-1 snapshot is not
rejected — loadState changes the settings (difficulty 1 becomes 2) and then
throws, returning false on no path: a partial application. -/
theorem loadState_partial_apply_counterexample :
    loadState wEngineState (some wBadSnapshot)
      = LoadResult.thrown
          { wEngineState with settings := ⟨2, 1, diffConfigOf 2⟩ }
    ∧ ({ wEngineState with
          settings := ⟨2, 1, diffConfigOf 2⟩ } : EngineState).settings.difficulty
        ≠ wEngineState.settings.difficulty
    ∧ (∀ s2 : EngineState,
        loadState wEngineState (some wBadSnapshot) ≠ LoadResult.ok false s2) := by
  refine ⟨rfl, by decide, ?_⟩
  intro s2 h2
  rw [show loadState wEngineState (some wBadSnapshot)
      = LoadResult.thrown
          { wEngineState with settings := ⟨2, 1, diffConfigOf 2⟩ } from rfl] at h2
  exact LoadResult.noConfusion h2

/-- Witness for C8 (amended): the version-2 snapshot is rejected untouched,
and the malformed version-1 snapshot ends thrown with its settings already
applied. -/
theorem loadState_version_guard_only_witness :
    loadState wEngineState (some wSnapshot) = LoadResult.ok false wEngineState
    ∧ loadState wEngineState (some wBadSnapshot)
        = LoadResult.thrown
            { wEngineState with
              settings :=
                { difficulty := (2 : Nat), speed := (1 : ℚ),
                  diffConfig := diffConfigOf 2 } } := by
  constructor
  · exact loadState_version_guard_only.1 wEngineState (some wSnapshot)
      (fun d hd => by cases hd; decide)
  · exact loadState_version_guard_only.2 wEngineState wBadSnapshot ⟨2, 1⟩
      rfl rfl rfl

/-- HORIZONTAL_OVERLAP_THRESHOLD from constants.js (0.5). -/
def HORIZONTAL_OVERLAP_THRESHOLD : ℚ := 1 / 2

/-- The overlap record built by findLowestOverlappingBlock (the source's
`by` field is spelled bY). -/
structure OverlapInfo where
  bx : ℚ
  bY : ℚ
  bw : ℚ
  bh : ℚ
  overlapLeft : ℚ
  overlapRight : ℚ
  overlapTop : ℚ
  overlapBottom : ℚ
deriving DecidableEq

/-- The overlap records of the filled piece cells whose pixel rectangle
overlaps the player rectangle, in the source's row-major scan order. -/
def overlapCandidates (piece : Piece) (px py : ℚ) : List OverlapInfo :=
  piece.shape.enum.flatMap (fun yrow =>
    yrow.2.enum.filterMap (fun xc =>
      if xc.2 then
        let bx : ℚ := ((piece.x + (xc.1 : Int) : Int) : ℚ) * CELL_SIZE
        let bY : ℚ := ((piece.y + (yrow.1 : Int) : Int) : ℚ) * CELL_SIZE
        if px < bx + CELL_SIZE ∧ px + PLAYER_WIDTH > bx
            ∧ py < bY + CELL_SIZE ∧ py + PLAYER_HEIGHT > bY then
          some { bx := bx, bY := bY, bw := CELL_SIZE, bh := CELL_SIZE,
                 overlapLeft := bx + CELL_SIZE - px,
                 overlapRight := px + PLAYER_WIDTH - bx,
                 overlapTop := bY + CELL_SIZE - py,
                 overlapBottom := py + PLAYER_HEIGHT - bY }
        else none
      else none))

/-- One step of the lowest-overlapping-block scan: the first hit is always
recorded, later hits only when strictly lower (by + bh beats the recorded
bottom). -/
def lowestStep (acc : Option OverlapInfo × ℚ) (i : OverlapInfo) :
    Option OverlapInfo × ℚ :=
  match acc.1 with
  | none => (some i, i.bY + i.bh)
  | some _ => if i.bY + i.bh > acc.2 then (some i, i.bY + i.bh) else acc

/-- findLowestOverlappingBlock from engine.js (overlapInfo starts null,
lowestBlockBottom starts 0). -/
def findLowestOverlappingBlock (piece : Piece) (px py : ℚ) :
    Option OverlapInfo :=
  ((overlapCandidates piece px py).foldl lowestStep (none, 0)).1

/-- checkGridCollisionOnly from engine.js: some locked grid cell inside the
clamped cell range of the pixel rectangle is occupied. -/
def checkGridCollisionOnly (g : Grid) (px py pw ph : ℚ) : Bool :=
  let left := ⌊px / CELL_SIZE⌋
  let right := ⌊(px + pw - 1) / CELL_SIZE⌋
  let top := ⌊py / CELL_SIZE⌋
  let bottom := ⌊(py + ph - 1) / CELL_SIZE⌋
  (List.range ROWS).any (fun y =>
    (List.range COLS).any (fun x =>
      decide (top ≤ (y : Int)) && decide ((y : Int) ≤ bottom)
        && decide (left ≤ (x : Int)) && decide ((x : Int) ≤ right)
        && cellOccupied g y x))

/-- tryPushPlayerDown from engine.js: move the player to just below the
block when that spot is inside the canvas and grid-clear. -/
def tryPushPlayerDown (g : Grid) (info : OverlapInfo) (p : EPlayer) :
    Option EPlayer :=
  let pushY := info.bY + info.bh
  if pushY + PLAYER_HEIGHT ≤ engineHeight then
    if checkGridCollisionOnly g p.x pushY PLAYER_WIDTH PLAYER_HEIGHT then none
    else some { p with y := pushY, vy := max p.vy 2 }
  else none

/-- tryPushPlayerHorizontally from engine.js: when the horizontal overlap is
under half the player's width, push sideways away from the block's center,
clamped to the canvas, if the destination is grid-clear. -/
def tryPushPlayerHorizontally (g : Grid) (info : OverlapInfo) (p : EPlayer) :
    Option EPlayer :=
  let horizontalOverlap := min info.overlapLeft info.overlapRight
  let thresholdWidth := PLAYER_WIDTH * HORIZONTAL_OVERLAP_THRESHOLD
  if horizontalOverlap ≥ thresholdWidth then none
  else
    let blockCenterX := info.bx + info.bw / 2
    let playerCenterX := p.x + PLAYER_WIDTH / 2
    let pushX0 : ℚ :=
      if playerCenterX < blockCenterX then info.bx - PLAYER_WIDTH
      else info.bx + info.bw
    let pushX := max 0 (min (engineWidth - PLAYER_WIDTH) pushX0)
    if checkGridCollisionOnly g pushX p.y PLAYER_WIDTH PLAYER_HEIGHT then none
    else some { p with x := pushX }

/-- checkPieceSquishesPlayer from engine.js: find the lowest overlapping
block, try the downward push first, then the horizontal push, and report a
squish only when both fail. -/
def checkPieceSquishesPlayer (g : Grid) (piece : Piece) (p : EPlayer) :
    Bool × EPlayer :=
  match findLowestOverlappingBlock piece p.x p.y with
  | none => (false, p)
  | some info =>
      match tryPushPlayerDown g info p with
      | some p' => (false, p')
      | none =>
          match tryPushPlayerHorizontally g info p with
          | some p' => (false, p')
          | none => (true, p)

/-- The scan that keeps the lowest block: the recorded bottom tracks the
recorded block, every scanned candidate's bottom is below it, and a
recorded block never disappears. -/
theorem foldl_lowest_spec (l : List OverlapInfo) :
    ∀ acc : Option OverlapInfo × ℚ,
      (∀ j, acc.1 = some j → acc.2 = j.bY + j.bh) →
      (∀ j, (l.foldl lowestStep acc).1 = some j →
          (l.foldl lowestStep acc).2 = j.bY + j.bh)
      ∧ (∀ i ∈ l, i.bY + i.bh ≤ (l.foldl lowestStep acc).2)
      ∧ (∀ k, acc.1 = some k → acc.2 ≤ (l.foldl lowestStep acc).2
          ∧ (l.foldl lowestStep acc).1 ≠ none) := by
  induction l with
  | nil =>
    intro acc h
    refine ⟨h, by simp, ?_⟩
    intro k hk
    refine ⟨le_refl _, ?_⟩
    simp only [List.foldl_nil]
    rw [hk]
    simp
  | cons i rest ih =>
    intro acc h
    have hinv : ∀ j, (lowestStep acc i).1 = some j →
        (lowestStep acc i).2 = j.bY + j.bh := by
      intro j hj
      cases hacc : acc.1 with
      | none =>
        simp only [lowestStep, hacc] at hj ⊢
        obtain rfl := Option.some.inj hj
        rfl
      | some k =>
        simp only [lowestStep, hacc] at hj ⊢
        by_cases hlt : i.bY + i.bh > acc.2
        · rw [if_pos hlt] at hj ⊢
          obtain rfl := Option.some.inj hj
          rfl
        · rw [if_neg hlt] at hj ⊢
          have hjk : acc.1 = some j := hj
          exact h j hjk
    have hsome : (lowestStep acc i).1 ≠ none := by
      cases hacc : acc.1 with
      | none => simp [lowestStep, hacc]
      | some k =>
        simp only [lowestStep, hacc]
        by_cases hlt : i.bY + i.bh > acc.2
        · rw [if_pos hlt]
          simp
        · rw [if_neg hlt]
          rw [hacc]
          simp
    have hbot : i.bY + i.bh ≤ (lowestStep acc i).2 := by
      cases hacc : acc.1 with
      | none => simp [lowestStep, hacc]
      | some k =>
        simp only [lowestStep, hacc]
        by_cases hlt : i.bY + i.bh > acc.2
        · rw [if_pos hlt]
        · rw [if_neg hlt]
          exact le_of_not_lt hlt
    have hmono : ∀ k, acc.1 = some k → acc.2 ≤ (lowestStep acc i).2 := by
      intro k hk
      simp only [lowestStep, hk]
      by_cases hlt : i.bY + i.bh > acc.2
      · rw [if_pos hlt]
        exact le_of_lt hlt
      · rw [if_neg hlt]
    obtain ⟨ih1, ih2, ih3⟩ := ih (lowestStep acc i) hinv
    obtain ⟨k', hk'⟩ := Option.ne_none_iff_exists'.1 hsome
    refine ⟨by simpa using ih1, ?_, ?_⟩
    · intro c hc
      rcases List.mem_cons.1 hc with hc | hc
      · subst hc
        simpa using le_trans hbot (ih3 k' hk').1
      · simpa using ih2 c hc
    · intro k hk
      constructor
      · simpa using le_trans (hmono k hk) (ih3 k' hk').1
      · simpa using (ih3 k' hk').2

/-- C1: whenever the scan finds an overlapping block, that block is the
lowest overlapping one, a successful downward push is taken before any
horizontal attempt and lands the player exactly at the block's bottom edge,
and the resolver reports a squish exactly when both the downward and the
horizontal push fail. -/
theorem squish_down_first_iff_both_blocked (g : Grid) (piece : Piece)
    (p : EPlayer) (info : OverlapInfo)
    (hfind : findLowestOverlappingBlock piece p.x p.y = some info) :
    (∀ c ∈ overlapCandidates piece p.x p.y,
        c.bY + c.bh ≤ info.bY + info.bh)
    ∧ (∀ p', tryPushPlayerDown g info p = some p' →
        checkPieceSquishesPlayer g piece p = (false, p')
          ∧ p'.y = info.bY + info.bh)
    ∧ (checkPieceSquishesPlayer g piece p = (true, p)
        ↔ tryPushPlayerDown g info p = none
          ∧ tryPushPlayerHorizontally g info p = none) := by
  refine ⟨?_, ?_, ?_⟩
  · intro c hc
    obtain ⟨h1, h2, _⟩ := foldl_lowest_spec (overlapCandidates piece p.x p.y)
      (none, 0) (by intro j hj; exact absurd hj (by simp))
    have hbotinfo := h1 info hfind
    rw [← hbotinfo]
    exact h2 c hc
  · intro p' hdown
    constructor
    · unfold checkPieceSquishesPlayer
      simp only [hfind, hdown]
    · unfold tryPushPlayerDown at hdown
      by_cases h1 : info.bY + info.bh + PLAYER_HEIGHT ≤ engineHeight
      · rw [if_pos h1] at hdown
        by_cases h2 : checkGridCollisionOnly g p.x (info.bY + info.bh)
            PLAYER_WIDTH PLAYER_HEIGHT = true
        · rw [if_pos h2] at hdown
          exact absurd hdown (by simp)
        · rw [if_neg h2] at hdown
          obtain rfl := Option.some.inj hdown
          rfl
      · rw [if_neg h1] at hdown
        exact absurd hdown (by simp)
  · unfold checkPieceSquishesPlayer
    rw [hfind]
    cases hd : tryPushPlayerDown g info p with
    | some p' => simp [hd]
    | none =>
      cases hh : tryPushPlayerHorizontally g info p with
      | some p' => simp [hd, hh]
      | none => simp [hd, hh]

/-- The empty grid never collides. -/
theorem checkGridCollisionOnly_emptyGrid (px py pw ph : ℚ) :
    checkGridCollisionOnly emptyGrid px py pw ph = false := by
  unfold checkGridCollisionOnly
  simp [cellOccupied_emptyGrid]

/-- An O piece two rows above the floor, overlapping the player. -/
def wSqPiece : Piece := mkTempPiece PieceType.O ⟨4, 8, 0⟩

/-- A player standing inside that piece's pixel rectangle. -/
def wSqPlayer : EPlayer := ⟨160, 300, 0, 0, false, true, false⟩

/-- The overlap record of the lowest overlapping cell (row 9, column 4). -/
def wSqInfo : OverlapInfo := ⟨140, 315, 35, 35, 15, 89 / 2, 50, 75 / 2⟩

/-- The player after the downward push of the witness scenario. -/
def wSqPushed : EPlayer :=
  { wSqPlayer with
    y := wSqInfo.bY + wSqInfo.bh,
    vy := max wSqPlayer.vy 2 }

/-- Witness for C1: for the concrete overlap the scan returns the lowest
overlapping cell, the resolver pushes the player down to its bottom edge
(the grid is empty, so the push succeeds) and reports no squish. -/
theorem squish_down_first_iff_both_blocked_witness :
    (∀ c ∈ overlapCandidates wSqPiece wSqPlayer.x wSqPlayer.y,
        c.bY + c.bh ≤ wSqInfo.bY + wSqInfo.bh)
    ∧ checkPieceSquishesPlayer emptyGrid wSqPiece wSqPlayer
        = (false, wSqPushed)
    ∧ wSqPushed.y = wSqInfo.bY + wSqInfo.bh := by
  have hfind : findLowestOverlappingBlock wSqPiece wSqPlayer.x wSqPlayer.y
      = some wSqInfo := by
    norm_num [findLowestOverlappingBlock, overlapCandidates, lowestStep,
      wSqPiece, wSqPlayer, wSqInfo, mkTempPiece, shapesOf, CELL_SIZE,
      PLAYER_WIDTH, PLAYER_HEIGHT, List.enum, List.enumFrom,
      List.filterMap_cons, List.filterMap_nil,
      List.foldl_cons, List.foldl_nil]
  have hdown : tryPushPlayerDown emptyGrid wSqInfo wSqPlayer
      = some wSqPushed := by
    simp only [tryPushPlayerDown]
    rw [if_pos (show wSqInfo.bY + wSqInfo.bh + PLAYER_HEIGHT ≤ engineHeight by
      norm_num [wSqInfo, PLAYER_HEIGHT, engineHeight])]
    simp [checkGridCollisionOnly_emptyGrid, wSqPushed]
  obtain ⟨hmax, hfirst, _⟩ := squish_down_first_iff_both_blocked emptyGrid
    wSqPiece wSqPlayer wSqInfo hfind
  obtain ⟨hres, hy⟩ := hfirst _ hdown
  exact ⟨hmax, hres, hy⟩

/-- C2: for a ROWS-row grid of COLS-cell rows whose fully-occupied rows are
exactly some set F, checkLines removes exactly those |F| rows, inserts |F|
all-empty rows at the top, preserves the non-cleared rows and their
top-to-bottom order, reports |F| cleared lines, and leaves ROWS rows of COLS
cells. -/
theorem checkLines_clears_exactly_full_rows (g : Grid)
    (hlen : g.length = ROWS) (hrow : ∀ r ∈ g, r.length = COLS) :
    (checkLines g).1
        = List.replicate (g.countP isFullRow) emptyRow
            ++ g.filter (fun r => !isFullRow r)
      ∧ (checkLines g).2 = g.countP isFullRow
      ∧ (checkLines g).1.length = ROWS
      ∧ ∀ r ∈ (checkLines g).1, r.length = COLS := by
  have hR : ROWS = 20 := rfl
  have hdropped : droppedGridOf g = g.filter (fun r => !isFullRow r) := by
    unfold droppedGridOf linesToClearOf
    exact enum_drop_full_eq_filter g 0
  have hcount : (linesToClearOf g).length = g.countP isFullRow :=
    length_full_indices g
  have hsplit : ∀ l : Grid, l.countP isFullRow + l.countP (fun r => !isFullRow r)
      = l.length := by
    intro l
    induction l with
    | nil => rfl
    | cons a t ih =>
      by_cases h : isFullRow a = true <;>
        simp [List.countP_cons, h, ← ih] <;> omega
  have hfiltlen : (g.filter (fun r => !isFullRow r)).length
      = g.countP (fun r => !isFullRow r) := by
    rw [List.countP_eq_length_filter]
  by_cases hnil : linesToClearOf g = []
  · -- no full rows: the grid is returned unchanged
    have hzero : g.countP isFullRow = 0 := by
      rw [← hcount, hnil]; rfl
    have hnone : ∀ r ∈ g, ¬ isFullRow r = true := List.countP_eq_zero.1 hzero
    have hkeep : g.filter (fun r => !isFullRow r) = g := by
      apply List.filter_eq_self.2
      intro r hr
      simp [hnone r hr]
    have hck : checkLines g = (g, 0) := by
      unfold checkLines
      rw [if_pos hnil]
    rw [hck]
    refine ⟨?_, ?_, hlen, hrow⟩
    · rw [hzero, hkeep]; rfl
    · rw [hzero]
  · -- at least one full row
    have hck : checkLines g
        = (List.replicate (ROWS - (droppedGridOf g).length) emptyRow ++ droppedGridOf g,
            (linesToClearOf g).length) := by
      unfold checkLines
      rw [if_neg hnil]
    have harg : ROWS - (droppedGridOf g).length = g.countP isFullRow := by
      rw [hdropped, hfiltlen]
      have := hsplit g
      omega
    rw [hck]
    refine ⟨?_, hcount, ?_, ?_⟩
    · rw [harg, hdropped]
    · rw [List.length_append, List.length_replicate, harg, hdropped, hfiltlen]
      have := hsplit g
      omega
    · intro r hr
      rcases List.mem_append.1 hr with hr | hr
      · rw [List.eq_of_mem_replicate hr]
        rfl
      · rw [hdropped] at hr
        exact hrow r (List.mem_of_mem_filter hr)

/-- C2 witness: a concrete 20-row grid whose bottom row is full is cleared to a
fresh empty row on top with the other rows preserved. -/
theorem checkLines_clears_exactly_full_rows_witness :
    ((List.replicate 19 emptyRow ++ [List.replicate 10 (some 1)] : Grid).length = ROWS
      ∧ ∀ r ∈ (List.replicate 19 emptyRow ++ [List.replicate 10 (some 1)] : Grid),
          r.length = COLS)
    ∧ ((checkLines (List.replicate 19 emptyRow ++ [List.replicate 10 (some 1)])).1
        = List.replicate
            ((List.replicate 19 emptyRow ++ [List.replicate 10 (some 1)] : Grid).countP
              isFullRow) emptyRow
            ++ (List.replicate 19 emptyRow ++ [List.replicate 10 (some 1)] : Grid).filter
              (fun r => !isFullRow r)
      ∧ (checkLines (List.replicate 19 emptyRow ++ [List.replicate 10 (some 1)])).2
          = (List.replicate 19 emptyRow ++ [List.replicate 10 (some 1)] : Grid).countP
              isFullRow
      ∧ (checkLines (List.replicate 19 emptyRow ++ [List.replicate 10 (some 1)])).1.length
          = ROWS
      ∧ ∀ r ∈ (checkLines (List.replicate 19 emptyRow ++ [List.replicate 10 (some 1)])).1,
          r.length = COLS) :=
  ⟨⟨by decide, by decide⟩,
    checkLines_clears_exactly_full_rows _ (by decide) (by decide)⟩



end TEscape
